import Mathlib

/-!
Verification development for the CAD-analysis agent runtime.

The Python source is embedded shallowly: JSON values become an inductive
type, dict mutation becomes functional update on association lists, float
arithmetic in the geometry layer becomes exact rational arithmetic, and the
agent loop becomes a fueled state-transition function whose fuel equals the
iteration bound of the source loop.  External effects (LLM transport, tool
execution, JSON argument parsing of the wire format) are parameters of the
embedded functions, and each run records instrumentation logs (LLM
invocations, registry executions) that the theorems inspect.
-/

/-- Shallow embedding of the JSON values handled by the runtime
(`json` module values in the source).  Numbers are integers: every numeric
field the verified code paths produce (`_original_chars`,
`image_base64_chars`, `texts_truncated`, counts) is an int in the source. -/
inductive Json where
  | null : Json
  | bool : Bool → Json
  | num : Int → Json
  | str : String → Json
  | arr : List Json → Json
  | obj : List (String × Json) → Json

/-- First-match association lookup: Python `dict.get(k)` (dict keys are
unique in Python, so first-match agrees with dict semantics). -/
def Json.lookupField : List (String × Json) → String → Option Json
  | [], _ => none
  | (k, v) :: rest, key => if k = key then some v else Json.lookupField rest key

/-- Python `d[k] = v`: replace the value in place when the key exists,
otherwise append the binding at the end (insertion order semantics). -/
def Json.setField : List (String × Json) → String → Json → List (String × Json)
  | [], key, value => [(key, value)]
  | (k, v) :: rest, key, value =>
      if k = key then (k, value) :: rest else (k, v) :: Json.setField rest key value

/-- Python `d.pop(k, None)` / `del d[k]`: remove the binding. -/
def Json.popField (fields : List (String × Json)) (key : String) : List (String × Json) :=
  fields.filter (fun kv => kv.1 ≠ key)

/-- Python `dict.get` on a `Json` value; `none` when the value is not an object. -/
def Json.getField : Json → String → Option Json
  | .obj fields, key => Json.lookupField fields key
  | _, _ => none

/-- Python truthiness (`bool(x)`) of a JSON value. -/
def Json.truthy : Json → Bool
  | .null => false
  | .bool b => b
  | .num n => n ≠ 0
  | .str s => ¬s.isEmpty
  | .arr items => ¬items.isEmpty
  | .obj fields => ¬fields.isEmpty

/-- Hex digit for the `\u00XX` escapes emitted by `json.dumps`. -/
def hexDigitChar (n : Nat) : Char :=
  if n < 10 then Char.ofNat (48 + n) else Char.ofNat (87 + n)

/-- Escaping of one character exactly as `json.dumps(..., ensure_ascii=False)`
does: `"` and `\` get a backslash, the five short control escapes are used
where they exist, remaining control characters become `\u00XX`, everything
else is passed through verbatim. -/
def jsonEscapeChar (c : Char) : String :=
  if c = '"' then "\\\""
  else if c = '\\' then "\\\\"
  else if c = '\n' then "\\n"
  else if c = '\t' then "\\t"
  else if c = '\r' then "\\r"
  else if c = Char.ofNat 8 then "\\b"
  else if c = Char.ofNat 12 then "\\f"
  else if c.toNat < 32 then
    String.mk ['\\', 'u', '0', '0', hexDigitChar (c.toNat / 16), hexDigitChar (c.toNat % 16)]
  else String.singleton c

/-- Escape a character list. -/
def jsonEscapeList : List Char → String
  | [] => ""
  | c :: rest => jsonEscapeChar c ++ jsonEscapeList rest

/-- Serialization of a string literal: quotes around the escaped body. -/
def jsonDumpString (s : String) : String :=
  "\"" ++ jsonEscapeList s.data ++ "\""

mutual
/-- Embeds `json.dumps(value, ensure_ascii=False)` with the default separators
`", "` and `": "` (the forms the agent uses for message payloads). -/
def Json.dumps : Json → String
  | .null => "null"
  | .bool true => "true"
  | .bool false => "false"
  | .num n => toString n
  | .str s => jsonDumpString s
  | .arr items => "[" ++ Json.dumpsArr items ++ "]"
  | .obj fields => "\x7b" ++ Json.dumpsObj fields ++ "\x7d"

/-- Comma-separated serialization of array elements. -/
def Json.dumpsArr : List Json → String
  | [] => ""
  | [x] => Json.dumps x
  | x :: y :: rest => Json.dumps x ++ ", " ++ Json.dumpsArr (y :: rest)

/-- Comma-separated serialization of object fields in insertion order. -/
def Json.dumpsObj : List (String × Json) → String
  | [] => ""
  | [(k, v)] => jsonDumpString k ++ ": " ++ Json.dumps v
  | (k, v) :: kv :: rest =>
      jsonDumpString k ++ ": " ++ Json.dumps v ++ ", " ++ Json.dumpsObj (kv :: rest)
end

/-- Stable insertion of a key into a key-sorted field list (string order,
as Python compares `str` keys during `sort_keys=True`). -/
def insertByKey (x : String × Json) : List (String × Json) → List (String × Json)
  | [] => [x]
  | y :: rest => if x.1 < y.1 ∨ x.1 = y.1 then x :: y :: rest else y :: insertByKey x rest

/-- Insertion sort of object fields by key. -/
def sortFieldsByKey : List (String × Json) → List (String × Json)
  | [] => []
  | x :: rest => insertByKey x (sortFieldsByKey rest)

mutual
/-- Recursively sort every object's keys: the effect of `sort_keys=True`. -/
def Json.sortKeys : Json → Json
  | .null => .null
  | .bool b => .bool b
  | .num n => .num n
  | .str s => .str s
  | .arr items => .arr (Json.sortKeysArr items)
  | .obj fields => .obj (sortFieldsByKey (Json.sortKeysFields fields))

/-- Key sorting mapped over array elements. -/
def Json.sortKeysArr : List Json → List Json
  | [] => []
  | x :: rest => Json.sortKeys x :: Json.sortKeysArr rest

/-- Key sorting mapped over field values. -/
def Json.sortKeysFields : List (String × Json) → List (String × Json)
  | [] => []
  | (k, v) :: rest => (k, Json.sortKeys v) :: Json.sortKeysFields rest
end

/-- Embeds `json.dumps(value, ensure_ascii=False, sort_keys=True)`: the canonical
serialization used for tool-call signatures. -/
def Json.dumpsSorted (j : Json) : String :=
  Json.dumps (Json.sortKeys j)

/-- Generic first-match association lookup (used for the tool table, the
tool cache and the signature counters). -/
def assocLookup {α : Type _} : List (String × α) → String → Option α
  | [], _ => none
  | (k, v) :: rest, key => if k = key then some v else assocLookup rest key

/-- Embeds `_build_tool_signature`: tool name plus canonical sorted-key JSON of
the parsed arguments. -/
def buildToolSignature (functionName : String) (arguments : Json) : String :=
  functionName ++ ":" ++ Json.dumpsSorted arguments

/-- Embeds `_normalize_tool_result` (memory_driven_agent.py): fold tool result
envelopes to a single `success/data-or-error` shape, unwrapping one level
of nesting and converting the legacy wrapped error payload. -/
def normalizeToolResult (result : Json) : Json :=
  match result with
  | .obj fields =>
    match Json.lookupField fields "data" with
    | some (.obj dfs) =>
      if (Json.lookupField dfs "success").isSome &&
          ((Json.lookupField dfs "data").isSome || (Json.lookupField dfs "error").isSome) then
        let outerSuccess := Json.truthy ((Json.lookupField fields "success").getD (.bool true))
        let innerSuccess := Json.truthy ((Json.lookupField dfs "success").getD .null)
        let n1 := Json.setField fields "success" (.bool (outerSuccess && innerSuccess))
        let n2 :=
          match Json.lookupField dfs "data" with
          | some inner => Json.setField n1 "data" inner
          | none => Json.popField n1 "data"
        let n3 :=
          match Json.lookupField dfs "error" with
          | some e => if Json.truthy e then Json.setField n2 "error" e else n2
          | none => n2
        .obj n3
      else if (match Json.lookupField dfs "error" with
                | some (.str _) => true
                | _ => false) && dfs.length == 1 &&
              Json.truthy ((Json.lookupField fields "success").getD (.bool true)) then
        let n1 := Json.setField fields "success" (.bool false)
        let n2 := Json.setField n1 "error" ((Json.lookupField dfs "error").getD .null)
        .obj (Json.popField n2 "data")
      else .obj fields
    | _ => .obj fields
  | _ => .obj [("success", .bool false), ("error", .str "invalid tool result")]

/-- Update a field on an object value in place (no-op on non-objects;
the source only applies it to dicts). -/
def Json.setKey : Json → String → Json → Json
  | .obj fields, key, value => .obj (Json.setField fields key value)
  | j, _, _ => j

/-- First stage of `_sanitize_tool_result`: normalization, removal of a
non-empty `data.image_base64` string (recording `image_base64_omitted` and
`image_base64_chars`), and truncation of `data.key_content.texts` to its
first 20 entries (recording `texts_truncated`). -/
def sanitizeStage1 (result : Json) : Json :=
  let safe := normalizeToolResult result
  match safe.getField "data" with
  | some (.obj dfs) =>
    let safeData := dfs
    let safeData :=
      match Json.lookupField safeData "image_base64" with
      | some (.str s) =>
        if ¬s.isEmpty then
          let d1 := Json.popField safeData "image_base64"
          let d2 := Json.setField d1 "image_base64_omitted" (.bool true)
          Json.setField d2 "image_base64_chars" (.num s.length)
        else safeData
      | _ => safeData
    let safeData :=
      match Json.lookupField safeData "key_content" with
      | some (.obj kcs) =>
        match Json.lookupField kcs "texts" with
        | some (.arr texts) =>
          if 20 < texts.length then
            let kc1 := Json.setField kcs "texts" (.arr (texts.take 20))
            let kc2 := Json.setField kc1 "texts_truncated" (.num (Int.ofNat texts.length - 20))
            Json.setField safeData "key_content" (.obj kc2)
          else safeData
        | _ => safeData
      | _ => safeData
    safe.setKey "data" (.obj safeData)
  | _ => safe

/-- Whitelist of structural `data` keys kept by the compact envelope. -/
def compactDataKeys : List String :=
  ["image_path", "thumbnail", "region_info", "entity_summary", "key_content",
   "bounds", "filename", "entity_count", "total_count", "layer_count",
   "image_base64_omitted", "image_base64_chars"]

/-- The compact envelope `_sanitize_tool_result` builds when the sanitized
payload still exceeds the character budget. -/
def compactEnvelope (safe : Json) (originalChars : Nat) : Json :=
  let compactData :=
    match safe.getField "data" with
    | some (.obj src) =>
      compactDataKeys.foldl (fun acc key =>
        match Json.lookupField src key with
        | some v => acc ++ [(key, v)]
        | none => acc) []
    | _ => []
  let compact := [("success", Json.bool (Json.truthy ((safe.getField "success").getD .null))),
                  ("_truncated", Json.bool true),
                  ("_original_chars", Json.num (Int.ofNat originalChars))]
  let compact := if (safe.getField "error").isSome
                 then compact ++ [("error", (safe.getField "error").getD .null)] else compact
  let compact := if ¬compactData.isEmpty then compact ++ [("data", Json.obj compactData)] else compact
  Json.obj compact

/-- The minimal envelope `_sanitize_tool_result` falls back to when even
the compact form exceeds the budget: it keeps `success`, a `data.note`
explaining the omission, `data.image_path` when truthy, and the `error`
field verbatim. -/
def minimalEnvelope (safe : Json) (originalChars : Nat) : Json :=
  let noteData := [("note", Json.str ("tool result omitted due to size: " ++
                                      toString originalChars ++ " chars"))]
  let noteData :=
    match safe.getField "data" with
    | some (.obj src) =>
      match Json.lookupField src "image_path" with
      | some p => if Json.truthy p then noteData ++ [("image_path", p)] else noteData
      | none => noteData
    | _ => noteData
  let minimal := [("success", Json.bool (Json.truthy ((safe.getField "success").getD .null))),
                  ("_truncated", Json.bool true),
                  ("_original_chars", Json.num (Int.ofNat originalChars)),
                  ("data", Json.obj noteData)]
  let minimal := if (safe.getField "error").isSome
                 then minimal ++ [("error", (safe.getField "error").getD .null)] else minimal
  Json.obj minimal

/-- Embeds `_sanitize_tool_result` (memory_driven_agent.py lines 981-1064).
`toolName` appears in the source only inside the serialization-failure
fallback, which is unreachable here because every embedded value is
JSON-serializable, so serialization is total. -/
def sanitizeToolResult (maxChars : Nat) (toolName : String) (result : Json) : Json :=
  let safe := sanitizeStage1 result
  let serializedLen := (Json.dumps safe).length
  if serializedLen ≤ maxChars then safe
  else
    let compact := compactEnvelope safe serializedLen
    if (Json.dumps compact).length ≤ maxChars then compact
    else minimalEnvelope safe serializedLen

/-- Embeds `ToolRegistry.execute_tool` (tool_registry.py lines 68-112): unknown
names yield a bare `error` dict with no `success` field; raw results from
a known tool get the registry's envelope normalization.  The tool bodies
themselves are parameters (`db` injection and async dispatch are
execution-environment concerns with no bearing on the envelope shape);
a tool that raises is modelled by a function returning an envelope
`success: false`, which the registry would produce for it. -/
def registryExecuteTool (table : List (String × (Json → Json)))
    (toolName : String) (args : Json) : Json :=
  match assocLookup table toolName with
  | none => .obj [("error", .str ("Unknown tool: " ++ toolName))]
  | some f =>
    let result := f args
    if (match result with
        | .obj fs => (Json.lookupField fs "success").isSome &&
            ((Json.lookupField fs "data").isSome || (Json.lookupField fs "error").isSome)
        | _ => false) then result
    else if (match result with
             | .obj fs => (match Json.lookupField fs "error" with
                           | some (.str _) => true
                           | _ => false)
             | _ => false) then
      .obj [("success", .bool false), ("error", (result.getField "error").getD .null)]
    else .obj [("success", .bool true), ("data", result)]

/-- The nested-envelope shape unwrapped by the first normalization branch:
a dict with `success` and at least one of `data`, `error`. -/
def envelopeShaped (d : Json) : Bool :=
  match d with
  | .obj dfs => (Json.lookupField dfs "success").isSome &&
      ((Json.lookupField dfs "data").isSome || (Json.lookupField dfs "error").isSome)
  | _ => false

/-- The legacy wrapped error payload: a one-key dict whose `error` value
is a string. -/
def legacyErrorShaped (d : Json) : Bool :=
  match d with
  | .obj dfs => (match Json.lookupField dfs "error" with
                 | some (.str _) => true
                 | _ => false) && dfs.length == 1
  | _ => false

/-- An already-normalized envelope whose `data` value would be rewritten
again by a second normalization pass. -/
def unstableData (n : Json) : Bool :=
  match n.getField "data" with
  | some d => envelopeShaped d ||
      (legacyErrorShaped d && Json.truthy ((n.getField "success").getD (.bool true)))
  | none => false

/-- Every result of the envelope normalizer is a JSON object. -/
theorem normalizeToolResult_isObj (r : Json) :
    ∃ fs, normalizeToolResult r = Json.obj fs := by
  unfold normalizeToolResult
  repeat' split
  all_goals exact ⟨_, rfl⟩

/-- Observation used to separate the two sides of the C4 counterexample
without needing decidable equality on `Json`. -/
def Json.dataIsNum (j : Json) : Bool :=
  match j.getField "data" with
  | some (.num _) => true
  | _ => false

/-- C4 (amended): envelope normalization is idempotent on every result
whose normalized `data` value is not itself envelope-shaped or
legacy-error-shaped; each application unwraps exactly one nesting level. -/
theorem normalize_idempotent_of_stable (r : Json)
    (h : unstableData (normalizeToolResult r) = false) :
    normalizeToolResult (normalizeToolResult r) = normalizeToolResult r := by
  obtain ⟨fs, hfs⟩ := normalizeToolResult_isObj r
  rw [hfs] at h ⊢
  unfold unstableData at h
  conv_lhs => unfold normalizeToolResult
  cases hd : Json.lookupField fs "data" with
  | none => simp [hd]
  | some d =>
    simp only [Json.getField, hd] at h
    cases d with
    | obj dfs =>
      simp only [hd]
      simp only [envelopeShaped, legacyErrorShaped, Bool.or_eq_false_iff,
        Bool.and_eq_false_iff] at h
      obtain ⟨h1, h2⟩ := h
      have hc1 : ((Json.lookupField dfs "success").isSome &&
          ((Json.lookupField dfs "data").isSome ||
            (Json.lookupField dfs "error").isSome)) = false := by
        rcases h1 with h1 | ⟨ha, hb⟩
        · simp [h1]
        · simp [ha, hb]
      have hc2 : ((match Json.lookupField dfs "error" with
                   | some (.str _) => true
                   | _ => false) && (dfs.length == 1) &&
          Json.truthy ((Json.lookupField fs "success").getD (Json.bool true))) = false := by
        rcases h2 with (h2 | h2) | h2 <;> simp [h2]
      rw [hc1, hc2]
      simp
    | null => simp [hd]
    | bool b => simp [hd]
    | num n => simp [hd]
    | str s => simp [hd]
    | arr a => simp [hd]

/-- Triple-wrapped envelope: each normalization pass unwraps one level. -/
def c4TripleWrapped : Json :=
  .obj [("success", .bool true),
        ("data", .obj [("success", .bool true),
                       ("data", .obj [("success", .bool true), ("data", .num 1)])])]

/-- C4 counterexample: normalization is not idempotent on the
triple-wrapped envelope — the first pass leaves a still-nested envelope in
`data`, and the second pass unwraps it further. -/
theorem normalize_not_idempotent_triple :
    normalizeToolResult (normalizeToolResult c4TripleWrapped) ≠
      normalizeToolResult c4TripleWrapped := by
  intro h
  exact absurd (congrArg Json.dataIsNum h) (by decide)

/-- Witness for the amended C4 theorem at a once-nested envelope. -/
theorem normalize_idempotent_witness :
    unstableData (normalizeToolResult (Json.obj
        [("success", Json.bool true),
         ("data", Json.obj [("success", Json.bool true), ("data", Json.num 7)])])) = false ∧
    normalizeToolResult (normalizeToolResult (Json.obj
        [("success", Json.bool true),
         ("data", Json.obj [("success", Json.bool true), ("data", Json.num 7)])])) =
      normalizeToolResult (Json.obj
        [("success", Json.bool true),
         ("data", Json.obj [("success", Json.bool true), ("data", Json.num 7)])]) :=
  ⟨by decide, normalize_idempotent_of_stable _ (by decide)⟩

/-- A run of `n` copies of the letter `x`: oversized payload material whose
JSON escaping is the identity. -/
def xRun (n : Nat) : String := String.mk (List.replicate n 'x')

/-- Length of an `x` run. -/
theorem xRun_length (n : Nat) : (xRun n).length = n := by
  show (List.replicate n 'x').length = n
  simp

/-- Every character serializes to at least one character. -/
theorem one_le_jsonEscapeChar_length (c : Char) : 1 ≤ (jsonEscapeChar c).length := by
  unfold jsonEscapeChar
  split_ifs <;> simp [String.singleton, String.length]

/-- Escaping never shortens a string. -/
theorem length_le_jsonEscapeList (l : List Char) : l.length ≤ (jsonEscapeList l).length := by
  induction l with
  | nil => simp [jsonEscapeList]
  | cons c rest ih =>
    have hc := one_le_jsonEscapeChar_length c
    simp only [jsonEscapeList, List.length_cons, String.length_append]
    omega

/-- A serialized string literal is at least as long as the string. -/
theorem length_le_jsonDumpString (s : String) : s.length ≤ (jsonDumpString s).length := by
  have h := length_le_jsonEscapeList s.data
  simp only [jsonDumpString, String.length_append]
  have : s.length = s.data.length := rfl
  omega

/-- A string stored in an object field occupies at least its own length in
the object's serialization. -/
theorem length_le_dumpsObj_of_mem (fields : List (String × Json)) (k : String) (s : String)
    (h : (k, Json.str s) ∈ fields) : s.length ≤ (Json.dumpsObj fields).length := by
  induction fields with
  | nil => cases h
  | cons kv rest ih =>
    rcases List.mem_cons.mp h with h | h
    · subst h
      cases rest with
      | nil =>
        have h1 := length_le_jsonDumpString s
        show s.length ≤ (jsonDumpString k ++ ": " ++ Json.dumps (Json.str s)).length
        simp only [String.length_append]
        have : Json.dumps (Json.str s) = jsonDumpString s := rfl
        rw [this]
        omega
      | cons kv2 rest2 =>
        have h1 := length_le_jsonDumpString s
        show s.length ≤ (jsonDumpString k ++ ": " ++ Json.dumps (Json.str s) ++ ", " ++
            Json.dumpsObj (kv2 :: rest2)).length
        simp only [String.length_append]
        have : Json.dumps (Json.str s) = jsonDumpString s := rfl
        rw [this]
        omega
    · have h1 := ih h
      cases rest with
      | nil => cases h
      | cons kv2 rest2 =>
        show s.length ≤ (jsonDumpString kv.1 ++ ": " ++ Json.dumps kv.2 ++ ", " ++
            Json.dumpsObj (kv2 :: rest2)).length
        simp only [String.length_append]
        omega

/-- A string stored in a top-level field occupies at least its own length
in the full serialization. -/
theorem length_le_dumps_of_mem (fields : List (String × Json)) (k : String) (s : String)
    (h : (k, Json.str s) ∈ fields) : s.length ≤ (Json.dumps (Json.obj fields)).length := by
  have h1 := length_le_dumpsObj_of_mem fields k s h
  show s.length ≤ ("\x7b" ++ Json.dumpsObj fields ++ "\x7d").length
  simp only [String.length_append]
  omega

/-- The compact envelope carries the input's `error` string verbatim, so
its serialization is at least that long. -/
theorem le_dumps_compactEnvelope (safe : Json) (originalChars : Nat) (s : String)
    (h : safe.getField "error" = some (Json.str s)) :
    s.length ≤ (Json.dumps (compactEnvelope safe originalChars)).length := by
  unfold compactEnvelope
  rw [h]
  simp only [Option.isSome_some, Option.getD_some, if_true]
  split
  · apply length_le_dumps_of_mem _ "error" s
    exact List.mem_append_left _ (List.mem_append_right _ (List.mem_singleton_self _))
  · apply length_le_dumps_of_mem _ "error" s
    exact List.mem_append_right _ (List.mem_singleton_self _)

/-- The minimal envelope carries the input's `error` string verbatim, so
its serialization is at least that long. -/
theorem le_dumps_minimalEnvelope (safe : Json) (originalChars : Nat) (s : String)
    (h : safe.getField "error" = some (Json.str s)) :
    s.length ≤ (Json.dumps (minimalEnvelope safe originalChars)).length := by
  unfold minimalEnvelope
  rw [h]
  simp only [Option.isSome_some, Option.getD_some, if_true]
  apply length_le_dumps_of_mem _ "error" s
  exact List.mem_append_right _ (List.mem_singleton_self _)

/-- C1 (amended): the sanitized result's serialization fits the character
budget, except that the fallback is the minimal envelope, whose size is
what it is — it keeps the `error` and `data.image_path` fields verbatim. -/
theorem sanitize_length_bounded_by_minimal (maxChars : Nat) (tool : String) (r : Json) :
    (Json.dumps (sanitizeToolResult maxChars tool r)).length ≤
      max maxChars (Json.dumps (minimalEnvelope (sanitizeStage1 r)
        ((Json.dumps (sanitizeStage1 r)).length))).length := by
  simp only [sanitizeToolResult]
  split_ifs with h1 h2
  · exact le_max_of_le_left h1
  · exact le_max_of_le_left h2
  · exact le_max_right _ _

/-- Envelope whose `error` field is a 50000-character string. -/
def c1Huge : Json := Json.obj [("success", Json.bool false), ("error", Json.str (xRun 50000))]

/-- C1 counterexample: with the default budget of 40000 characters, the
sanitizer's output for a result carrying a 50000-character `error` string
serializes to more than 40000 + 2000 characters (2000 being the slack the
specification's own end-to-end scenario allows): the minimal fallback
keeps `error` verbatim, so no bounded epsilon covers it. -/
theorem sanitize_exceeds_budget_on_huge_error :
    40000 + 2000 < (Json.dumps (sanitizeToolResult 40000 "tool" c1Huge)).length := by
  have hsafe : sanitizeStage1 c1Huge = c1Huge := rfl
  have herr : c1Huge.getField "error" = some (Json.str (xRun 50000)) := rfl
  have hmem : ("error", Json.str (xRun 50000)) ∈
      [("success", Json.bool false), ("error", Json.str (xRun 50000))] :=
    List.mem_cons_of_mem _ (List.mem_singleton_self _)
  have h0 : 50000 ≤ (Json.dumps c1Huge).length := by
    have h := length_le_dumps_of_mem _ "error" (xRun 50000) hmem
    rwa [xRun_length] at h
  have h1 : ¬ ((Json.dumps (sanitizeStage1 c1Huge)).length ≤ 40000) := by
    rw [hsafe]; omega
  have h2 : ¬ ((Json.dumps (compactEnvelope (sanitizeStage1 c1Huge)
      ((Json.dumps (sanitizeStage1 c1Huge)).length))).length ≤ 40000) := by
    rw [hsafe]
    have h := le_dumps_compactEnvelope c1Huge ((Json.dumps c1Huge).length) (xRun 50000) herr
    rw [xRun_length] at h
    omega
  simp only [sanitizeToolResult]
  rw [if_neg h1, if_neg h2, hsafe]
  have h := le_dumps_minimalEnvelope c1Huge ((Json.dumps c1Huge).length) (xRun 50000) herr
  rw [xRun_length] at h
  omega

/-- C10 (amended): for a tool name absent from the registry,
`execute_tool` returns the bare `error` dict with no `success` field, and
— whenever that dict's serialization fits the 40000-character budget,
which holds for every realistic tool name — normalization and
sanitization return it unchanged, still without a `success` field. -/
theorem unknown_tool_envelope_shape (table : List (String × (Json → Json)))
    (name : String) (args : Json)
    (h : assocLookup table name = none)
    (hlen : (Json.dumps (Json.obj [("error", Json.str ("Unknown tool: " ++ name))])).length
      ≤ 40000) :
    registryExecuteTool table name args =
      Json.obj [("error", Json.str ("Unknown tool: " ++ name))] ∧
    normalizeToolResult (registryExecuteTool table name args) =
      registryExecuteTool table name args ∧
    sanitizeToolResult 40000 name (registryExecuteTool table name args) =
      registryExecuteTool table name args ∧
    (sanitizeToolResult 40000 name (registryExecuteTool table name args)).getField "success" =
      none := by
  have h1 : registryExecuteTool table name args =
      Json.obj [("error", Json.str ("Unknown tool: " ++ name))] := by
    unfold registryExecuteTool
    rw [h]
  have h2 : normalizeToolResult (Json.obj [("error", Json.str ("Unknown tool: " ++ name))]) =
      Json.obj [("error", Json.str ("Unknown tool: " ++ name))] := rfl
  have h3 : sanitizeStage1 (Json.obj [("error", Json.str ("Unknown tool: " ++ name))]) =
      Json.obj [("error", Json.str ("Unknown tool: " ++ name))] := rfl
  have h4 : sanitizeToolResult 40000 name
      (Json.obj [("error", Json.str ("Unknown tool: " ++ name))]) =
      Json.obj [("error", Json.str ("Unknown tool: " ++ name))] := by
    simp only [sanitizeToolResult]
    rw [h3, if_pos hlen]
  refine ⟨h1, ?_, ?_, ?_⟩
  · rw [h1, h2]
  · rw [h1, h4]
  · rw [h1, h4]
    rfl

/-- Witness for the amended C10 theorem at an empty registry and the tool
name `nope`. -/
theorem unknown_tool_envelope_shape_witness :
    assocLookup ([] : List (String × (Json → Json))) "nope" = none ∧
    (Json.dumps (Json.obj [("error", Json.str ("Unknown tool: " ++ "nope"))])).length ≤ 40000 ∧
    (sanitizeToolResult 40000 "nope"
      (registryExecuteTool [] "nope" (Json.obj []))).getField "success" = none :=
  ⟨rfl, by decide,
    (unknown_tool_envelope_shape [] "nope" (Json.obj []) rfl (by decide)).2.2.2⟩

/-- C10 counterexample: for a pathological 50000-character unknown tool
name, the error dict's serialization exceeds the budget and the sanitizer
switches to the compact/minimal envelope, which does add a `success`
field — so sanitization does not always leave the dict without one. -/
theorem unknown_tool_success_field_appears :
    (sanitizeToolResult 40000 (xRun 50000)
        (registryExecuteTool [] (xRun 50000) (Json.obj []))).getField "success" =
      some (Json.bool false) := by
  have h1 : registryExecuteTool [] (xRun 50000) (Json.obj []) =
      Json.obj [("error", Json.str ("Unknown tool: " ++ xRun 50000))] := rfl
  rw [h1]
  have hsafe : sanitizeStage1 (Json.obj [("error", Json.str ("Unknown tool: " ++ xRun 50000))]) =
      Json.obj [("error", Json.str ("Unknown tool: " ++ xRun 50000))] := rfl
  have herr : (Json.obj [("error", Json.str ("Unknown tool: " ++ xRun 50000))]).getField "error" =
      some (Json.str ("Unknown tool: " ++ xRun 50000)) := rfl
  have hmem : ("error", Json.str ("Unknown tool: " ++ xRun 50000)) ∈
      [("error", Json.str ("Unknown tool: " ++ xRun 50000))] := List.mem_singleton_self _
  have helen : 50000 ≤ ("Unknown tool: " ++ xRun 50000).length := by
    have ha : ("Unknown tool: " ++ xRun 50000).length =
        ("Unknown tool: " : String).length + (xRun 50000).length := String.length_append _ _
    rw [xRun_length] at ha
    omega
  have h0 : 50000 ≤
      (Json.dumps (Json.obj [("error", Json.str ("Unknown tool: " ++ xRun 50000))])).length :=
    le_trans helen (length_le_dumps_of_mem _ "error" _ hmem)
  have hc1 : ¬ ((Json.dumps (sanitizeStage1
      (Json.obj [("error", Json.str ("Unknown tool: " ++ xRun 50000))]))).length ≤ 40000) := by
    rw [hsafe]; omega
  have hc2 : ¬ ((Json.dumps (compactEnvelope
      (sanitizeStage1 (Json.obj [("error", Json.str ("Unknown tool: " ++ xRun 50000))]))
      ((Json.dumps (sanitizeStage1
        (Json.obj [("error", Json.str ("Unknown tool: " ++ xRun 50000))]))).length))).length
      ≤ 40000) := by
    rw [hsafe]
    have h := le_dumps_compactEnvelope
      (Json.obj [("error", Json.str ("Unknown tool: " ++ xRun 50000))])
      ((Json.dumps (Json.obj [("error", Json.str ("Unknown tool: " ++ xRun 50000))])).length)
      ("Unknown tool: " ++ xRun 50000) herr
    omega
  simp only [sanitizeToolResult]
  rw [if_neg hc1, if_neg hc2, hsafe]
  rfl

/-- Hex digit test used by the DXF escape decoders. -/
def isHexDigitChar (c : Char) : Bool :=
  c.isDigit || ('A' ≤ c && c ≤ 'F') || ('a' ≤ c && c ≤ 'f')

/-- Numeric value of a hex digit. -/
def hexDigitVal (c : Char) : Nat :=
  if c.isDigit then c.toNat - 48
  else if 'A' ≤ c && c ≤ 'F' then c.toNat - 55
  else c.toNat - 87

/-- Value of a four-digit hex group. -/
def hexQuad (h1 h2 h3 h4 : Char) : Nat :=
  ((hexDigitVal h1 * 16 + hexDigitVal h2) * 16 + hexDigitVal h3) * 16 + hexDigitVal h4

/-- MIF codepage selector digit (`1`..`5`). -/
def isMifCodepage (c : Char) : Bool := '1' ≤ c && c ≤ '5'

/-- Modelled from the spec: `has_mif_encoding` (an ezdxf helper, not part
of this repository) — true when the text contains a MIF escape
`\M+<codepage digit><4 hex digits>`. -/
def hasMifChars : List Char → Bool
  | [] => false
  | c :: rest =>
    (match c, rest with
     | '\\', 'M' :: '+' :: p :: h1 :: h2 :: h3 :: h4 :: _ =>
        isMifCodepage p && isHexDigitChar h1 && isHexDigitChar h2 &&
          isHexDigitChar h3 && isHexDigitChar h4
     | _, _ => false) || hasMifChars rest

/-- Modelled from the spec: `decode_mif_to_unicode` (ezdxf helper, not in
this repository) — resolve each `\M+<codepage><4 hex>` sequence to the
Unicode code point the codepage mapping `cp` assigns to it, left to right;
a sequence the mapping does not know (garbled) is left intact. -/
def decodeMifChars (cp : Char → Nat → Option Char) : List Char → List Char
  | [] => []
  | '\\' :: 'M' :: '+' :: p :: h1 :: h2 :: h3 :: h4 :: rest2 =>
    if isMifCodepage p && isHexDigitChar h1 && isHexDigitChar h2 &&
        isHexDigitChar h3 && isHexDigitChar h4 then
      match cp p (hexQuad h1 h2 h3 h4) with
      | some ch => ch :: decodeMifChars cp rest2
      | none => '\\' :: 'M' :: '+' :: p :: h1 :: h2 :: h3 :: h4 :: decodeMifChars cp rest2
    else '\\' :: decodeMifChars cp ('M' :: '+' :: p :: h1 :: h2 :: h3 :: h4 :: rest2)
  | c :: rest => c :: decodeMifChars cp rest

/-- Modelled from the spec: `has_dxf_unicode` (ezdxf helper, not in this
repository) — true when the text contains a `\U+<4 hex digits>` escape. -/
def hasDxfUnicodeChars : List Char → Bool
  | [] => false
  | c :: rest =>
    (match c, rest with
     | '\\', 'U' :: '+' :: h1 :: h2 :: h3 :: h4 :: _ =>
        isHexDigitChar h1 && isHexDigitChar h2 && isHexDigitChar h3 && isHexDigitChar h4
     | _, _ => false) || hasDxfUnicodeChars rest

/-- Modelled from the spec: `decode_dxf_unicode` (ezdxf helper, not in
this repository) — resolve each `\U+<4 hex>` sequence to its Unicode code
point, left to right, leaving non-matching text intact. -/
def decodeDxfUnicodeChars : List Char → List Char
  | [] => []
  | '\\' :: 'U' :: '+' :: h1 :: h2 :: h3 :: h4 :: rest2 =>
    if isHexDigitChar h1 && isHexDigitChar h2 && isHexDigitChar h3 && isHexDigitChar h4 then
      Char.ofNat (hexQuad h1 h2 h3 h4) :: decodeDxfUnicodeChars rest2
    else '\\' :: decodeDxfUnicodeChars ('U' :: '+' :: h1 :: h2 :: h3 :: h4 :: rest2)
  | c :: rest => c :: decodeDxfUnicodeChars rest

/-- Embeds `decode_cad_text` (cad_renderer.py lines 81-107): decode MIF
escapes when present, then DXF Unicode escapes when present.  The ezdxf
escape helpers it delegates to are modelled from the spec (see above); the
codepage mapping is the parameter `cp`.  The source wraps the body in a
try/except returning the original text; the embedded helpers are total, so
the except path has no counterpart and the function never fails. -/
def decodeCadText (cp : Char → Nat → Option Char) (value : String) : String :=
  let text := value
  let text := if hasMifChars text.data then String.mk (decodeMifChars cp text.data) else text
  let text := if hasDxfUnicodeChars text.data then String.mk (decodeDxfUnicodeChars text.data)
              else text
  text

/-- Remove every NUL character: Python `replace("\x00", "")`. -/
def removeNulChars (s : String) : String :=
  String.mk (s.data.filter (fun c => c ≠ Char.ofNat 0))

/-- Drop trailing whitespace from a character list. -/
def dropTrailingWs : List Char → List Char
  | [] => []
  | c :: rest =>
    let r := dropTrailingWs rest
    if r.isEmpty && c.isWhitespace then [] else c :: r

/-- Python `str.strip()`: drop leading and trailing whitespace. -/
def stripString (s : String) : String :=
  String.mk (dropTrailingWs (s.data.dropWhile Char.isWhitespace))

/-- Embeds the post-processing `_extract_entity_text` (cad_renderer.py
lines 397-410) applies to an entity's raw text:
`decode_cad_text(text).replace("\x00", "").strip()`.  The raw attribute
access and MTEXT `plain_mtext` flattening are external inputs, represented
by the `rawText` argument. -/
def extractEntityText (cp : Char → Nat → Option Char) (rawText : String) : String :=
  stripString (removeNulChars (decodeCadText cp rawText))

/-- A codepage mapping with no entries (decoding tables unavailable). -/
def mifCodepageUnavailable : Char → Nat → Option Char := fun _ _ => none

/-- A text without any recognizable escape passes through the decoder
unchanged (helper shared by the decoder claims). -/
theorem decodeCadText_eq_self (cp : Char → Nat → Option Char) (t : String)
    (h1 : hasMifChars t.data = false) (h2 : hasDxfUnicodeChars t.data = false) :
    decodeCadText cp t = t := by
  simp [decodeCadText, h1, h2]

/-- Membership survives trailing-whitespace removal. -/
theorem mem_of_mem_dropTrailingWs (l : List Char) (c : Char)
    (h : c ∈ dropTrailingWs l) : c ∈ l := by
  induction l with
  | nil => cases h
  | cons a rest ih =>
    simp only [dropTrailingWs] at h
    by_cases hc : (dropTrailingWs rest).isEmpty && a.isWhitespace
    · rw [if_pos hc] at h
      cases h
    · rw [if_neg hc] at h
      rcases List.mem_cons.mp h with h | h
      · exact h ▸ List.mem_cons_self _ _
      · exact List.mem_cons_of_mem _ (ih h)

/-- The head left by `dropWhile` fails the predicate. -/
theorem head?_dropWhile_not (p : Char → Bool) (l : List Char) (c : Char)
    (h : (l.dropWhile p).head? = some c) : p c = false := by
  induction l with
  | nil => simp [List.dropWhile] at h
  | cons a rest ih =>
    rw [List.dropWhile_cons] at h
    by_cases hp : p a
    · rw [if_pos hp] at h
      exact ih h
    · rw [if_neg hp] at h
      simp only [List.head?_cons, Option.some.injEq] at h
      subst h
      exact Bool.not_eq_true _ ▸ Bool.of_not_eq_true hp

/-- Trailing-whitespace removal keeps the head (when any remains). -/
theorem head?_dropTrailingWs (l : List Char) (c : Char)
    (h : (dropTrailingWs l).head? = some c) : l.head? = some c := by
  induction l with
  | nil => simp [dropTrailingWs] at h
  | cons a rest _ =>
    simp only [dropTrailingWs] at h
    by_cases hc : (dropTrailingWs rest).isEmpty && a.isWhitespace
    · rw [if_pos hc] at h
      cases h
    · rw [if_neg hc] at h
      simpa using h

/-- The last element left by trailing-whitespace removal is not
whitespace. -/
theorem getLast?_dropTrailingWs (l : List Char) (c : Char)
    (h : (dropTrailingWs l).getLast? = some c) : c.isWhitespace = false := by
  induction l with
  | nil => simp [dropTrailingWs] at h
  | cons a rest ih =>
    simp only [dropTrailingWs] at h
    by_cases hc : (dropTrailingWs rest).isEmpty && a.isWhitespace
    · rw [if_pos hc] at h
      cases h
    · rw [if_neg hc] at h
      cases he : dropTrailingWs rest with
      | nil =>
        rw [he] at h
        simp only [List.getLast?_singleton, Option.some.injEq] at h
        subst h
        rw [he] at hc
        simp only [List.isEmpty_nil, Bool.true_and] at hc
        exact Bool.not_eq_true _ ▸ Bool.of_not_eq_true hc
      | cons b bs =>
        rw [he] at h
        rw [List.getLast?_cons_cons] at h
        exact ih (he ▸ h)

/-- C5 (amended): the decoder is idempotent on every string whose decoded
form contains no residual MIF or DXF-Unicode escape — in particular on any
already-decoded string free of escape patterns.  (A decode that re-creates
an escape, e.g. via `\U+005C`, is decoded further by a second pass.) -/
theorem decode_idempotent_of_no_residual_escapes (cp : Char → Nat → Option Char) (s : String)
    (h1 : hasMifChars (decodeCadText cp s).data = false)
    (h2 : hasDxfUnicodeChars (decodeCadText cp s).data = false) :
    decodeCadText cp (decodeCadText cp s) = decodeCadText cp s :=
  decodeCadText_eq_self cp _ h1 h2

/-- C5 counterexample: decoding the string `\U+005CU+0041` resolves
`\U+005C` to a backslash, yielding `\U+0041`, which a second application
decodes further to `A` — so `decode(decode(s)) ≠ decode(s)`. -/
theorem decode_not_idempotent :
    decodeCadText mifCodepageUnavailable
        (decodeCadText mifCodepageUnavailable "\\U+005CU+0041") ≠
      decodeCadText mifCodepageUnavailable "\\U+005CU+0041" := by
  decide

/-- Witness for the amended C5 theorem at the escape-free string `hello`. -/
theorem decode_idempotent_witness :
    hasMifChars (decodeCadText mifCodepageUnavailable "hello").data = false ∧
    hasDxfUnicodeChars (decodeCadText mifCodepageUnavailable "hello").data = false ∧
    decodeCadText mifCodepageUnavailable (decodeCadText mifCodepageUnavailable "hello") =
      decodeCadText mifCodepageUnavailable "hello" :=
  ⟨by decide, by decide,
   decode_idempotent_of_no_residual_escapes mifCodepageUnavailable "hello"
     (by decide) (by decide)⟩

/-- C6: the decoder leaves strings free of well-formed escapes (including
garbled ones such as `\U+zz`) unchanged; the entity-text extraction
removes every NUL character (hence all trailing ones) and its result
carries no leading or trailing whitespace.  The decoder is a total
function: the source's catch-all exception handler returning the original
text has no reachable counterpart. -/
theorem decoder_robustness (cp : Char → Nat → Option Char) (s : String) :
    (hasMifChars s.data = false → hasDxfUnicodeChars s.data = false →
      decodeCadText cp s = s) ∧
    (∀ c ∈ (extractEntityText cp s).data, c ≠ Char.ofNat 0) ∧
    (∀ c, (extractEntityText cp s).data.head? = some c → c.isWhitespace = false) ∧
    (∀ c, (extractEntityText cp s).data.getLast? = some c → c.isWhitespace = false) := by
  refine ⟨fun h1 h2 => decodeCadText_eq_self cp s h1 h2, ?_, ?_, ?_⟩
  · intro c hc
    have hc2 := mem_of_mem_dropTrailingWs _ _ hc
    have hc3 := (List.dropWhile_sublist _).subset hc2
    have hc4 := List.of_mem_filter hc3
    simpa using hc4
  · intro c hc
    have hc2 := head?_dropTrailingWs _ _ hc
    exact head?_dropWhile_not _ _ _ hc2
  · intro c hc
    exact getLast?_dropTrailingWs _ _ hc

/-- Witness for C6 at a garbled escape and at a NUL-and-space-padded
text. -/
theorem decoder_robustness_witness :
    hasMifChars ("\\U+zz hi".data) = false ∧
    hasDxfUnicodeChars ("\\U+zz hi".data) = false ∧
    decodeCadText mifCodepageUnavailable "\\U+zz hi" = "\\U+zz hi" ∧
    extractEntityText mifCodepageUnavailable " \x00hi\x00 " = "hi" :=
  ⟨by decide, by decide,
   (decoder_robustness mifCodepageUnavailable "\\U+zz hi").1 (by decide) (by decide),
   by decide⟩

/-- Insert a rational into a sorted list (ascending). -/
def insertSortedQ (x : ℚ) : List ℚ → List ℚ
  | [] => [x]
  | y :: rest => if x ≤ y then x :: y :: rest else y :: insertSortedQ x rest

/-- Python `sorted` on rationals (insertion sort, ascending, stable). -/
def sortQ : List ℚ → List ℚ
  | [] => []
  | x :: rest => insertSortedQ x (sortQ rest)

/-- Embeds `_quantile` (cad_renderer.py lines 595-607) over exact
rationals.  `int(pos)` truncates toward zero; `pos ≥ 0` on every reachable
path, so it coincides with the floor used here. -/
def quantileQ (values : List ℚ) (q : ℚ) : ℚ :=
  if values.isEmpty then 0
  else if q ≤ 0 then values.getD 0 0
  else if 1 ≤ q then (values.getLast?).getD 0
  else
    let pos : ℚ := ((values.length : ℚ) - 1) * q
    let low : Nat := (Int.floor pos).toNat
    let high : Nat := min (low + 1) (values.length - 1)
    let frac : ℚ := pos - (low : ℚ)
    values.getD low 0 * (1 - frac) + values.getD high 0 * frac

/-- The claim's wording of the quantile: `q ≤ 0 → first`, `q ≥ 1 → last`,
otherwise `pos = (n-1)·q` and blend the floor/ceil neighbors. -/
def quantileSpec (values : List ℚ) (q : ℚ) : ℚ :=
  if values.isEmpty then 0
  else if q ≤ 0 then values.getD 0 0
  else if 1 ≤ q then (values.getLast?).getD 0
  else
    let pos : ℚ := ((values.length : ℚ) - 1) * q
    let frac : ℚ := pos - ((Int.floor pos : ℤ) : ℚ)
    values.getD (Int.floor pos).toNat 0 * (1 - frac) +
      values.getD (Int.ceil pos).toNat 0 * frac

/-- The code's index blend agrees with the claim's floor/ceil blend. -/
theorem quantileQ_eq_quantileSpec (values : List ℚ) (q : ℚ) :
    quantileQ values q = quantileSpec values q := by
  unfold quantileQ quantileSpec
  split_ifs with h1 h2 h3
  · rfl
  · rfl
  · rfl
  · dsimp only
    have hq0 : 0 < q := lt_of_not_le h2
    have hq1 : q < 1 := lt_of_not_le h3
    have hn : 1 ≤ values.length := by
      cases values with
      | nil => simp at h1
      | cons a l => simp
    have hpos : (0 : ℚ) ≤ ((values.length : ℚ) - 1) * q := by
      have : (1 : ℚ) ≤ (values.length : ℚ) := by exact_mod_cast hn
      have h' : (0 : ℚ) ≤ (values.length : ℚ) - 1 := by linarith
      positivity
    have hfl0 : 0 ≤ Int.floor (((values.length : ℚ) - 1) * q) := by
      exact Int.floor_nonneg.mpr hpos
    have hcast : (((Int.floor (((values.length : ℚ) - 1) * q)).toNat : ℚ)) =
        ((Int.floor (((values.length : ℚ) - 1) * q) : ℤ) : ℚ) := by
      exact_mod_cast Int.toNat_of_nonneg hfl0
    by_cases hfrac : ((values.length : ℚ) - 1) * q -
        ((Int.floor (((values.length : ℚ) - 1) * q) : ℤ) : ℚ) = 0
    · rw [hcast, hfrac]
      ring
    · -- non-integral position: n ≥ 2, ceil = floor + 1 = the code's high index
      have hn2 : 2 ≤ values.length := by
        by_contra hlt
        have hn1 : values.length = 1 := by omega
        apply hfrac
        rw [hn1]
        norm_num
      have hflt : ((Int.floor (((values.length : ℚ) - 1) * q) : ℤ) : ℚ) <
          ((values.length : ℚ) - 1) * q := by
        rcases lt_or_eq_of_le (Int.floor_le (((values.length : ℚ) - 1) * q)) with h | h
        · exact h
        · exact absurd (by linarith : ((values.length : ℚ) - 1) * q -
            ((Int.floor (((values.length : ℚ) - 1) * q) : ℤ) : ℚ) = 0) hfrac
      have hceil : Int.ceil (((values.length : ℚ) - 1) * q) =
          Int.floor (((values.length : ℚ) - 1) * q) + 1 := by
        have hle : Int.ceil (((values.length : ℚ) - 1) * q) ≤
            Int.floor (((values.length : ℚ) - 1) * q) + 1 := by
          apply Int.ceil_le.mpr
          push_cast
          have := Int.lt_floor_add_one (((values.length : ℚ) - 1) * q)
          linarith
        have hgt : Int.floor (((values.length : ℚ) - 1) * q) <
            Int.ceil (((values.length : ℚ) - 1) * q) := by
          apply Int.lt_ceil.mpr
          exact hflt
        omega
      have hlt : ((values.length : ℚ) - 1) * q < ((values.length : ℚ) - 1) := by
        have h' : (0 : ℚ) < (values.length : ℚ) - 1 := by
          have : (2 : ℚ) ≤ (values.length : ℚ) := by exact_mod_cast hn2
          linarith
        calc ((values.length : ℚ) - 1) * q < ((values.length : ℚ) - 1) * 1 := by
              exact mul_lt_mul_of_pos_left hq1 h'
          _ = (values.length : ℚ) - 1 := by ring
      have hfl_lt : Int.floor (((values.length : ℚ) - 1) * q) < (values.length : ℤ) - 1 := by
        have := Int.floor_le_floor (le_of_lt hlt)
        have hfloor_n : Int.floor ((values.length : ℚ) - 1) = (values.length : ℤ) - 1 := by
          rw [show ((values.length : ℚ) - 1) = (((values.length : ℤ) - 1 : ℤ) : ℚ) by push_cast; ring]
          exact Int.floor_intCast _
        rcases lt_or_eq_of_le (le_trans this (le_of_eq hfloor_n)) with h | h
        · exact h
        · exfalso
          have : ((Int.floor (((values.length : ℚ) - 1) * q) : ℤ) : ℚ) =
              (values.length : ℚ) - 1 := by
            rw [h]; push_cast; ring
          linarith
      have hhigh : min ((Int.floor (((values.length : ℚ) - 1) * q)).toNat + 1)
          (values.length - 1) = (Int.ceil (((values.length : ℚ) - 1) * q)).toNat := by
        rw [hceil]
        omega
      rw [hcast, hhigh]

/-- Axis-aligned box `(min_x, min_y, max_x, max_y)` in drawing units. -/
structure BoxQ where
  x1 : ℚ
  y1 : ℚ
  x2 : ℚ
  y2 : ℚ
deriving DecidableEq

/-- Center abscissa of a box. -/
def boxCenterX (b : BoxQ) : ℚ := (b.x1 + b.x2) / 2

/-- Center ordinate of a box. -/
def boxCenterY (b : BoxQ) : ℚ := (b.y1 + b.y2) / 2

/-- Embeds `_filter_outlier_boxes` (cad_renderer.py lines 561-592): IQR
filtering of box centers.  `int(len(boxes) * 0.2)` truncates the float
product toward zero, which for every list length agrees with the natural
division by 5 used here (the float `0.2` is minutely above `1/5`, and the
product never rounds past the next integer for the lengths a list can
have). -/
def filterOutlierBoxes (boxes : List BoxQ) : List BoxQ :=
  if boxes.length < 20 then boxes
  else
    let centersX := sortQ (boxes.map boxCenterX)
    let centersY := sortQ (boxes.map boxCenterY)
    let q1x := quantileQ centersX (1/4)
    let q3x := quantileQ centersX (3/4)
    let q1y := quantileQ centersY (1/4)
    let q3y := quantileQ centersY (3/4)
    let iqrX := max (q3x - q1x) 1
    let iqrY := max (q3y - q1y) 1
    let minX := q1x - 4 * iqrX
    let maxX := q3x + 4 * iqrX
    let minY := q1y - 4 * iqrY
    let maxY := q3y + 4 * iqrY
    let filtered := boxes.filter (fun b =>
      decide (minX ≤ boxCenterX b) && decide (boxCenterX b ≤ maxX) &&
      decide (minY ≤ boxCenterY b) && decide (boxCenterY b ≤ maxY))
    if filtered.length < max 10 (boxes.length / 5) then boxes else filtered

/-- The claim's wording of the filter: always compute the per-axis
25th/75th centiles (claim-worded quantile), accept centers within
`[q1 − 4·iqr, q3 + 4·iqr]` with the raw (unclamped) `iqr`, and reject the
filtering when fewer than `max(10, 0.2·n)` boxes survive. -/
def filterOutlierBoxesClaim (boxes : List BoxQ) : List BoxQ :=
  let centersX := sortQ (boxes.map boxCenterX)
  let centersY := sortQ (boxes.map boxCenterY)
  let q1x := quantileSpec centersX (1/4)
  let q3x := quantileSpec centersX (3/4)
  let q1y := quantileSpec centersY (1/4)
  let q3y := quantileSpec centersY (3/4)
  let iqrX := q3x - q1x
  let iqrY := q3y - q1y
  let minX := q1x - 4 * iqrX
  let maxX := q3x + 4 * iqrX
  let minY := q1y - 4 * iqrY
  let maxY := q3y + 4 * iqrY
  let filtered := boxes.filter (fun b =>
    decide (minX ≤ boxCenterX b) && decide (boxCenterX b ≤ maxX) &&
    decide (minY ≤ boxCenterY b) && decide (boxCenterY b ≤ maxY))
  if (filtered.length : ℚ) < max 10 ((boxes.length : ℚ) * (2/10)) then boxes else filtered

/-- The accepted set in the amended wording: centers inside the window
built from the claim-worded quantiles and the clamped `iqr`. -/
def acceptedBoxesSpec (boxes : List BoxQ) : List BoxQ :=
  let centersX := sortQ (boxes.map boxCenterX)
  let centersY := sortQ (boxes.map boxCenterY)
  let q1x := quantileSpec centersX (1/4)
  let q3x := quantileSpec centersX (3/4)
  let q1y := quantileSpec centersY (1/4)
  let q3y := quantileSpec centersY (3/4)
  let iqrX := max (q3x - q1x) 1
  let iqrY := max (q3y - q1y) 1
  let minX := q1x - 4 * iqrX
  let maxX := q3x + 4 * iqrX
  let minY := q1y - 4 * iqrY
  let maxY := q3y + 4 * iqrY
  boxes.filter (fun b =>
    decide (minX ≤ boxCenterX b) && decide (boxCenterX b ≤ maxX) &&
    decide (minY ≤ boxCenterY b) && decide (boxCenterY b ≤ maxY))

/-- C7 (amended): the quantile follows the claim's interpolation rule, but
the outlier filter (i) passes lists of fewer than 20 boxes through
unchanged, (ii) clamps each axis `iqr` to at least `1.0`, and (iii) uses
the integer-truncated threshold `max(10, int(0.2·n))`; within those
corrections it accepts exactly the boxes whose centers lie inside the
per-axis windows and otherwise returns the original list. -/
theorem filterOutlierBoxes_characterization (boxes : List BoxQ) :
    (∀ values q, quantileQ values q = quantileSpec values q) ∧
    (boxes.length < 20 → filterOutlierBoxes boxes = boxes) ∧
    (20 ≤ boxes.length →
      filterOutlierBoxes boxes =
        if (acceptedBoxesSpec boxes).length < max 10 (boxes.length / 5) then boxes
        else acceptedBoxesSpec boxes) := by
  refine ⟨quantileQ_eq_quantileSpec, ?_, ?_⟩
  · intro h
    unfold filterOutlierBoxes
    rw [if_pos h]
  · intro h
    unfold filterOutlierBoxes acceptedBoxesSpec
    rw [if_neg (by omega)]
    simp only [quantileQ_eq_quantileSpec]

/-- Twelve boxes clustered at the origin and one remote outlier: a
thirteen-element list. -/
def c7Boxes : List BoxQ := List.replicate 12 (BoxQ.mk 0 0 2 2) ++ [BoxQ.mk 99 99 101 101]

/-- Centers of the counterexample boxes along the x axis. -/
theorem c7Boxes_centersX : c7Boxes.map boxCenterX = List.replicate 12 1 ++ [100] := by
  simp [c7Boxes, boxCenterX]
  norm_num

/-- Centers of the counterexample boxes along the y axis. -/
theorem c7Boxes_centersY : c7Boxes.map boxCenterY = List.replicate 12 1 ++ [100] := by
  simp [c7Boxes, boxCenterY]
  norm_num

/-- The center list is already sorted. -/
theorem c7Boxes_sorted : sortQ (List.replicate 12 (1:ℚ) ++ [100]) =
    List.replicate 12 1 ++ [100] := by
  norm_num [List.replicate, sortQ, insertSortedQ]

/-- First quartile of the counterexample centers. -/
theorem c7Boxes_q1 : quantileSpec (List.replicate 12 (1:ℚ) ++ [100]) (1/4) = 1 := by
  unfold quantileSpec
  rw [if_neg (by norm_num [List.replicate]), if_neg (by norm_num), if_neg (by norm_num)]
  dsimp only
  norm_num [List.replicate]
  rfl

/-- Third quartile of the counterexample centers. -/
theorem c7Boxes_q3 : quantileSpec (List.replicate 12 (1:ℚ) ++ [100]) (3/4) = 1 := by
  unfold quantileSpec
  rw [if_neg (by norm_num [List.replicate]), if_neg (by norm_num), if_neg (by norm_num)]
  dsimp only
  norm_num [List.replicate]
  rfl

/-- The code passes the 13-element list through unchanged. -/
theorem filterOutlierBoxes_c7Boxes : filterOutlierBoxes c7Boxes = c7Boxes := by
  unfold filterOutlierBoxes
  rw [if_pos (by norm_num [c7Boxes])]

/-- The filter as the claim words it drops the outlier: 12 boxes remain
(12 is at least `max(10, 0.2·13)`, so the filtering is kept). -/
theorem filterOutlierBoxesClaim_c7Boxes_length :
    (filterOutlierBoxesClaim c7Boxes).length = 12 := by
  unfold filterOutlierBoxesClaim
  dsimp only
  rw [c7Boxes_centersX, c7Boxes_centersY, c7Boxes_sorted, c7Boxes_q1, c7Boxes_q3]
  norm_num [c7Boxes, List.replicate, boxCenterX, boxCenterY]

/-- C7 counterexample: on the 13-element list the filter as claimed (no
size guard) keeps 12 boxes, while the code returns all 13 unchanged
because it only filters lists of at least 20 boxes. -/
theorem filterOutlierBoxes_differs_from_claim :
    filterOutlierBoxes c7Boxes ≠ filterOutlierBoxesClaim c7Boxes := by
  intro h
  have hl := congrArg List.length h
  have h13 : c7Boxes.length = 13 := by norm_num [c7Boxes]
  rw [filterOutlierBoxesClaim_c7Boxes_length, filterOutlierBoxes_c7Boxes, h13] at hl
  exact absurd hl (by norm_num)

/-- Witness for the amended C7 theorem: the quantile rule at a concrete
list and the sub-20 passthrough on the 13-element list. -/
theorem filterOutlierBoxes_characterization_witness :
    quantileQ [1, 2, 3, 4] (1/2) = quantileSpec [1, 2, 3, 4] (1/2) ∧
    c7Boxes.length < 20 ∧
    filterOutlierBoxes c7Boxes = c7Boxes :=
  ⟨(filterOutlierBoxes_characterization []).1 [1, 2, 3, 4] (1/2),
   by norm_num [c7Boxes],
   (filterOutlierBoxes_characterization c7Boxes).2.1 (by norm_num [c7Boxes])⟩

/-- An entity as the extraction loop observes it: its DXF type tag and its
layer (Python `getattr(entity.dxf, "layer", "0")`).  Geometry and text
live behind the `info` / `intersects` parameters below — the claim is
about the filtering and truncation, not the per-type payload. -/
structure CadEntity where
  dxftype : String
  layer : String

/-- The three `continue` guards of the `extract_cad_entities` loop
(cad_agent_tools.py lines 180-191): an entity is kept when no filter
rejects it.  A filter argument that is `None` or an empty list is falsy in
Python and therefore does not filter. -/
def entityPasses (entityTypes layers : Option (List String)) (bbox : Option BoxQ)
    (intersects : CadEntity → BoxQ → Bool) (e : CadEntity) : Bool :=
  (match entityTypes with
   | some ts => !(!ts.isEmpty && !ts.contains e.dxftype)
   | none => true) &&
  (match layers with
   | some ls => !(!ls.isEmpty && !ls.contains e.layer)
   | none => true) &&
  (match bbox with
   | some bb => intersects e bb
   | none => true)

/-- Python `entity_count[t] = entity_count.get(t, 0) + 1`. -/
def bumpCount : List (String × Nat) → String → List (String × Nat)
  | [], t => [(t, 1)]
  | (k, n) :: rest, t =>
      if k = t then (k, n + 1) :: rest else (k, n) :: bumpCount rest t

/-- The accumulation loop of `extract_cad_entities`: append the info dict
and bump the per-type counter for every entity that passes the filters. -/
def extractLoop (pass : CadEntity → Bool) (info : CadEntity → Json) :
    List CadEntity → List Json × List (String × Nat) → List Json × List (String × Nat)
  | [], acc => acc
  | e :: rest, (infos, counts) =>
      if pass e then
        extractLoop pass info rest (infos ++ [info e], bumpCount counts e.dxftype)
      else extractLoop pass info rest (infos, counts)

/-- Embeds `extract_cad_entities` (cad_agent_tools.py lines 151-227): run
the filtering loop over the model-space entities, then return the
`{success, data: {entities: first 100, total_count, entity_count}}`
envelope.  File reading and per-entity attribute access are external; the
entity stream, the per-entity info dict and the bbox intersection test are
parameters. -/
def extractCadEntities (entities : List CadEntity)
    (entityTypes layers : Option (List String)) (bbox : Option BoxQ)
    (intersects : CadEntity → BoxQ → Bool) (info : CadEntity → Json) : Json :=
  let acc := extractLoop (entityPasses entityTypes layers bbox intersects) info entities ([], [])
  Json.obj [("success", Json.bool true),
            ("data", Json.obj
              [("entities", Json.arr (acc.1.take 100)),
               ("total_count", Json.num (Int.ofNat acc.1.length)),
               ("entity_count", Json.obj (acc.2.map (fun kn => (kn.1, Json.num (Int.ofNat kn.2)))))])]

/-- The loop's info accumulator is the filtered entity stream, mapped. -/
theorem extractLoop_infos (pass : CadEntity → Bool) (info : CadEntity → Json) :
    ∀ (l : List CadEntity) (infos : List Json) (counts : List (String × Nat)),
      (extractLoop pass info l (infos, counts)).1 = infos ++ (l.filter pass).map info := by
  intro l
  induction l with
  | nil => intro infos counts; simp [extractLoop]
  | cons e rest ih =>
    intro infos counts
    by_cases h : pass e
    · simp [extractLoop, h, ih, List.filter_cons]
    · simp [extractLoop, h, ih, List.filter_cons]

/-- C9: the returned `data.entities` list carries at most 100 entries,
while `data.total_count` is the number of all entities that pass the
`entity_types`/`layers`/`bbox` filters, so it can exceed the list's
length. -/
theorem extract_entities_truncates_but_counts_all (entities : List CadEntity)
    (entityTypes layers : Option (List String)) (bbox : Option BoxQ)
    (intersects : CadEntity → BoxQ → Bool) (info : CadEntity → Json) :
    (∃ items, ((extractCadEntities entities entityTypes layers bbox intersects
        info).getField "data").bind (fun d => d.getField "entities") =
          some (Json.arr items) ∧ items.length ≤ 100) ∧
    ((extractCadEntities entities entityTypes layers bbox intersects
        info).getField "data").bind (fun d => d.getField "total_count") =
      some (Json.num (Int.ofNat
        ((entities.filter (entityPasses entityTypes layers bbox intersects)).length))) := by
  constructor
  · refine ⟨((extractLoop (entityPasses entityTypes layers bbox intersects) info entities
      ([], [])).1.take 100), rfl, ?_⟩
    rw [List.length_take]
    omega
  · have h := extractLoop_infos (entityPasses entityTypes layers bbox intersects) info
      entities [] []
    show some (Json.num (Int.ofNat (extractLoop (entityPasses entityTypes layers bbox
        intersects) info entities ([], [])).1.length)) = _
    rw [h]
    simp

/-- Generic association update: replace in place or append (Python dict
assignment, used for the signature counters). -/
def assocSet {α : Type _} : List (String × α) → String → α → List (String × α)
  | [], key, value => [(key, value)]
  | (k, v) :: rest, key, value =>
      if k = key then (k, value) :: rest else (k, v) :: assocSet rest key value

/-- A tool call as the provider returns it (`id`, `type`, `function.name`,
`function.arguments` as the raw JSON string). -/
structure ToolCallMsg where
  id : String
  typ : String
  name : String
  argumentsRaw : String
deriving DecidableEq

/-- A message of the in-flight list sent to the LLM (a dict in the source;
absent keys are `none`). -/
structure ChatMsg where
  role : String
  content : Option String
  toolCalls : List ToolCallMsg
  toolCallId : Option String
  reasoningContent : Option String

/-- A plain system message appended by the loop guards. -/
def systemChatMsg (text : String) : ChatMsg := ⟨"system", some text, [], none, none⟩

/-- A tool-result message carrying the JSON-serialized payload. -/
def toolChatMsg (callId : String) (payload : String) : ChatMsg :=
  ⟨"tool", some payload, [], some callId, none⟩

/-- Modelled from the spec: `AgentState.add_message` — the module
`src/core/agent/state.py` the agent imports it from is absent from the
source tree, and §4.10 of the spec says `add_message(role, content,
tool_calls?, tool_call_id?) appends in order`, so a history entry stores
the fields exactly as passed (`content` is the Python `str` argument). -/
structure HistMsg where
  role : String
  content : String
  toolCalls : List ToolCallMsg
  toolCallId : Option String
deriving DecidableEq

/-- The provider message inside one LLM choice. -/
structure RespMsg where
  content : Option String
  toolCalls : List ToolCallMsg
  reasoningContent : Option String

/-- One choice of an LLM response. -/
structure RespChoice where
  message : RespMsg

/-- An LLM response (`chat_completion` result). -/
structure LlmResponse where
  choices : List RespChoice

/-- One oracle reply of the LLM transport: a response, or an exception
raised by the call. -/
inductive LlmReply where
  | ok : LlmResponse → LlmReply
  | exn : String → LlmReply

/-- Record of one `chat_completion` invocation: the tool list passed and
whether the call raised. -/
structure LlmCallRec where
  tools : List Json
  failed : Bool

/-- Per-call execution info returned by `_execute_tools`. -/
structure ExecInfo where
  toolName : String
  args : Json
  cached : Bool
  signature : Option String

/-- One registry execution: an entry is appended exactly when
`tool_registry.execute_tool` is actually invoked. -/
structure ExecEntry where
  toolName : String
  args : Json

/-- An `all_tool_calls` record. -/
structure ToolRec where
  name : String
  args : Json
  result : Json
  cached : Bool
  signature : Option String

/-- A `loop_advisories` entry (iteration, type, message; the per-type
extra fields of the source are diagnostic only and omitted). -/
structure Advisory where
  iteration : Nat
  typ : String
  message : String

/-- The constants fixed in `MemoryDrivenAgent.__init__` (20, 14, 3,
40000); kept as parameters so the theorems cover every configuration. -/
structure AgentCfg where
  maxIterations : Nat
  maxToolCallsPerTurn : Nat
  loopReviewRepeatThreshold : Nat
  maxToolResultChars : Nat

/-- The source's default constants. -/
def defaultAgentCfg : AgentCfg := ⟨20, 14, 3, 40000⟩

/-- The mutable state of `_agent_loop`, together with the instrumentation
logs (`llmCalls`, `execLog`) and the pending LLM oracle replies. -/
structure LoopSt where
  messages : List ChatMsg
  history : List HistMsg
  iteration : Nat
  accumulatedText : String
  allToolCalls : List ToolRec
  loopAdvisories : List Advisory
  toolCache : List (String × Json)
  totalToolCalls : Nat
  sigCounts : List (String × Nat)
  warnedSigs : List String
  llmCalls : List LlmCallRec
  execLog : List ExecEntry
  llmQueue : List LlmReply
  done : Bool
  raised : Option String

/-- Embeds `_execute_tools` (memory_driven_agent.py lines 657-742): parse
arguments, build the signature, serve repeats from the cache (`deepcopy`
is the identity on pure values) or execute through the registry, sanitize,
and populate the cache.  Stream-callback visualization is display-only and
omitted. -/
def executeToolsGo (parse : String → Option Json) (registry : String → Json → Json)
    (maxChars : Nat) :
    List ToolCallMsg → List (String × Json) → List ExecEntry →
      List Json × List ExecInfo × List (String × Json) × List ExecEntry
  | [], cache, elog => ([], [], cache, elog)
  | tc :: rest, cache, elog =>
    match parse tc.argumentsRaw with
    | none =>
      let r := Json.obj [("success", Json.bool false),
                         ("error", Json.str ("工具参数解析失败: " ++ tc.argumentsRaw))]
      let i : ExecInfo := ⟨tc.name, Json.obj [("_raw_arguments", Json.str tc.argumentsRaw)],
        false, none⟩
      let out := executeToolsGo parse registry maxChars rest cache elog
      (r :: out.1, i :: out.2.1, out.2.2.1, out.2.2.2)
    | some args =>
      let sig := buildToolSignature tc.name args
      match assocLookup cache sig with
      | some cachedResult =>
        let out := executeToolsGo parse registry maxChars rest cache elog
        (cachedResult :: out.1, ExecInfo.mk tc.name args true (some sig) :: out.2.1,
          out.2.2.1, out.2.2.2)
      | none =>
        let r := sanitizeToolResult maxChars tc.name (registry tc.name args)
        let out := executeToolsGo parse registry maxChars rest
          (cache ++ [(sig, r)]) (elog ++ [ExecEntry.mk tc.name args])
        (r :: out.1, ExecInfo.mk tc.name args false (some sig) :: out.2.1, out.2.2.1, out.2.2.2)

/-- The record appended to `all_tool_calls` for one executed call (the
loop re-parses the raw arguments, falling back to a `_raw_arguments`
wrapper). -/
def mkToolRec (parse : String → Option Json) (tc : ToolCallMsg) (result : Json)
    (info : ExecInfo) : ToolRec :=
  ⟨tc.name, (parse tc.argumentsRaw).getD
      (Json.obj [("_raw_arguments", Json.str tc.argumentsRaw)]),
    result, info.cached, info.signature⟩

/-- The one-shot repeat advisory's system message (the source text is
Chinese; reproduced verbatim). -/
def repeatSelfCheckText (toolName : String) : String :=
  "你已经多次重复调用 `" ++ toolName ++ "` 且参数相同。" ++
    "请自查是否真的有新增信息；如果没有，请停止重复调用并直接总结。"

/-- The repeat advisory's log message. -/
def repeatAdvisoryText (toolName : String) (repeatCount : Nat) : String :=
  "loop-review hint: `" ++ toolName ++ "` with same args repeated " ++
    toString repeatCount ++ " times; double-check whether this is new evidence."

/-- The soft tool-budget system message. -/
def budgetSystemText (maxCalls : Nat) : String :=
  "本轮工具调用已达到建议上限（" ++ toString maxCalls ++ " 次）。" ++
    "请优先基于已有信息给出结论。若必须继续调用工具，请先说明新增价值。"

/-- The soft tool-budget advisory message. -/
def budgetAdvisoryText (total maxCalls : Nat) : String :=
  "soft budget warning: total tool calls reached " ++ toString total ++
    " (configured max " ++ toString maxCalls ++ ")"

/-- The forced-finalization system message. -/
def finalizeSystemText (maxIter : Nat) : String :=
  "你已达到最大迭代次数（" ++ toString maxIter ++ "）。" ++
    "请停止工具调用，直接给出基于已有证据的最终结论。"

/-- Per-call bookkeeping of the loop body (memory_driven_agent.py lines
503-547): bump the signature counter, fire the one-shot repeat-signature
advisory when the threshold is crossed, and append the
`all_tool_calls` record.  A signature built from a name and canonical
JSON is never the empty string, so Python's truthiness test on it is the
`Option` match here. -/
def recordToolCall (cfg : AgentCfg) (parse : String → Option Json) (st : LoopSt)
    (tc : ToolCallMsg) (result : Json) (info : ExecInfo) : LoopSt :=
  let st :=
    match info.signature with
    | some sig =>
      let newCount := (assocLookup st.sigCounts sig).getD 0 + 1
      let st := { st with sigCounts := assocSet st.sigCounts sig newCount }
      if cfg.loopReviewRepeatThreshold ≤ newCount ∧ sig ∉ st.warnedSigs then
        { st with
          warnedSigs := st.warnedSigs ++ [sig],
          messages := st.messages ++ [systemChatMsg (repeatSelfCheckText tc.name)],
          loopAdvisories := st.loopAdvisories ++
            [Advisory.mk st.iteration "repeat_signature"
              (repeatAdvisoryText tc.name newCount)] }
      else st
    | none => st
  { st with allToolCalls := st.allToolCalls ++ [mkToolRec parse tc result info] }

/-- The tool-call branch of one loop iteration (memory_driven_agent.py
lines 495-609): execute the batch, do per-call bookkeeping, append the
assistant message (empty content stored as `none`) and the tool-result
messages to the in-flight list, mirror both into the session history, and
fire the soft budget advisory when the per-turn total reaches the cap. -/
def processToolBatch (cfg : AgentCfg) (parse : String → Option Json)
    (registry : String → Json → Json) (st : LoopSt) (content reasoning : String)
    (toolCalls : List ToolCallMsg) : LoopSt :=
  let out := executeToolsGo parse registry cfg.maxToolResultChars toolCalls
    st.toolCache st.execLog
  let results := out.1
  let infos := out.2.1
  let st := { st with toolCache := out.2.2.1, execLog := out.2.2.2 }
  let st := (toolCalls.zip (results.zip infos)).foldl
    (fun (s : LoopSt) (p : ToolCallMsg × Json × ExecInfo) =>
      recordToolCall cfg parse s p.1 p.2.1 p.2.2) st
  let assistantMsg : ChatMsg :=
    { role := "assistant",
      content := if content.isEmpty then none else some content,
      toolCalls := toolCalls,
      toolCallId := none,
      reasoningContent := if reasoning.isEmpty then none else some reasoning }
  let toolMsgs := (toolCalls.zip results).map
    (fun (p : ToolCallMsg × Json) => toolChatMsg p.1.id (Json.dumps p.2))
  let st := { st with messages := st.messages ++ [assistantMsg] ++ toolMsgs }
  let histToolMsgs := (toolCalls.zip results).map
    (fun (p : ToolCallMsg × Json) => HistMsg.mk "tool" (Json.dumps p.2) [] (some p.1.id))
  let st := { st with history := st.history ++
      [HistMsg.mk "assistant" content toolCalls none] ++ histToolMsgs }
  let total := st.totalToolCalls + toolCalls.length
  let st := { st with totalToolCalls := total }
  if cfg.maxToolCallsPerTurn ≤ total then
    { st with
      messages := st.messages ++ [systemChatMsg (budgetSystemText cfg.maxToolCallsPerTurn)],
      loopAdvisories := st.loopAdvisories ++
        [Advisory.mk st.iteration "tool_budget_warning"
          (budgetAdvisoryText total cfg.maxToolCallsPerTurn)] }
  else st

/-- One pass of the `while` body of `_agent_loop`: invoke the LLM (an
exhausted oracle or an `exn` reply is a raised transport exception, which
the main loop does not catch), break on an empty choice list, accumulate
the text, and either finish on a tool-free response (recording the
assistant message in the session history) or process the batch. -/
def loopIterate (cfg : AgentCfg) (parse : String → Option Json)
    (registry : String → Json → Json) (activeTools : List Json) (st : LoopSt) : LoopSt :=
  let st := { st with iteration := st.iteration + 1 }
  match st.llmQueue with
  | [] =>
    { st with llmCalls := st.llmCalls ++ [LlmCallRec.mk activeTools true],
              raised := some "llm transport unavailable" }
  | reply :: restQueue =>
    let st := { st with llmQueue := restQueue }
    match reply with
    | .exn e =>
      { st with llmCalls := st.llmCalls ++ [LlmCallRec.mk activeTools true],
                raised := some e }
    | .ok resp =>
      let st := { st with llmCalls := st.llmCalls ++ [LlmCallRec.mk activeTools false] }
      match resp.choices with
      | [] => { st with done := true }
      | choice :: _ =>
        let content := choice.message.content.getD ""
        let reasoning := choice.message.reasoningContent.getD ""
        let st := { st with accumulatedText := st.accumulatedText ++ content }
        match choice.message.toolCalls with
        | [] =>
          { st with done := true,
                    history := st.history ++ [HistMsg.mk "assistant" content [] none] }
        | tc :: tcs => processToolBatch cfg parse registry st content reasoning (tc :: tcs)

/-- The fueled `while iteration < max_iterations` loop; the fuel starts at
`maxIterations` and the iteration counter at 0, so fuel exhaustion is
exactly the guard turning false. -/
def agentLoopGo (cfg : AgentCfg) (parse : String → Option Json)
    (registry : String → Json → Json) (activeTools : List Json) :
    Nat → LoopSt → LoopSt
  | 0, st => st
  | fuel + 1, st =>
    if st.done ∨ st.raised.isSome then st
    else agentLoopGo cfg parse registry activeTools fuel
      (loopIterate cfg parse registry activeTools st)

/-- Forced finalization (memory_driven_agent.py lines 611-647): append the
finalize system message and re-invoke the LLM with an empty tool list; any
exception (or an exhausted transport) is caught and recorded as a
`finalization_error` advisory; a non-empty final answer is accumulated and
stored in the session history. -/
def finalizeLoop (cfg : AgentCfg) (st : LoopSt) : LoopSt :=
  let st := { st with messages := st.messages ++
    [systemChatMsg (finalizeSystemText cfg.maxIterations)] }
  match st.llmQueue with
  | [] =>
    { st with llmCalls := st.llmCalls ++ [LlmCallRec.mk [] true],
              loopAdvisories := st.loopAdvisories ++
                [Advisory.mk st.iteration "finalization_error"
                  "failed to finalize after max iterations: llm transport unavailable"] }
  | reply :: restQueue =>
    let st := { st with llmQueue := restQueue }
    match reply with
    | .exn e =>
      { st with llmCalls := st.llmCalls ++ [LlmCallRec.mk [] true],
                loopAdvisories := st.loopAdvisories ++
                  [Advisory.mk st.iteration "finalization_error"
                    ("failed to finalize after max iterations: " ++ e)] }
    | .ok resp =>
      let st := { st with llmCalls := st.llmCalls ++ [LlmCallRec.mk [] false] }
      match resp.choices with
      | [] => st
      | choice :: _ =>
        let finalContent := choice.message.content.getD ""
        if finalContent.isEmpty then st
        else
          { st with accumulatedText := st.accumulatedText ++ finalContent,
                    history := st.history ++ [HistMsg.mk "assistant" finalContent [] none] }

/-- The structured result of a turn, extended with the instrumentation
the theorems read (LLM invocation log, registry execution log, final
cache, raised-exception marker). -/
structure AgentLoopResult where
  text : String
  iterations : Nat
  toolCalls : List ToolRec
  loopAdvisories : List Advisory
  messages : List ChatMsg
  history : List HistMsg
  llmCalls : List LlmCallRec
  execLog : List ExecEntry
  finalCache : List (String × Json)
  raised : Option String

/-- Project the loop state into the returned result. -/
def mkLoopResult (st : LoopSt) : AgentLoopResult :=
  ⟨st.accumulatedText, st.iteration, st.allToolCalls, st.loopAdvisories, st.messages,
   st.history, st.llmCalls, st.execLog, st.toolCache, st.raised⟩

/-- The loop state at entry of `_agent_loop`. -/
def initialLoopSt (messages0 : List ChatMsg) (history0 : List HistMsg)
    (llm : List LlmReply) : LoopSt :=
  ⟨messages0, history0, 0, "", [], [], [], 0, [], [], [], [], llm, false, none⟩

/-- Embeds `_agent_loop` (memory_driven_agent.py lines 422-653) end to
end: run the bounded loop, then — unless an exception propagated — apply
forced finalization whenever the iteration counter reached the bound
(the source checks `iteration >= max_iterations` even after a same-pass
break). -/
def agentLoopRun (cfg : AgentCfg) (parse : String → Option Json)
    (registry : String → Json → Json) (llm : List LlmReply)
    (messages0 : List ChatMsg) (history0 : List HistMsg)
    (tools : List Json) : AgentLoopResult :=
  let st1 := agentLoopGo cfg parse registry tools cfg.maxIterations
    (initialLoopSt messages0 history0 llm)
  let st2 := if st1.raised.isNone ∧ cfg.maxIterations ≤ st1.iteration
             then finalizeLoop cfg st1 else st1
  mkLoopResult st2

/-- Projection of the result record (raised marker). -/
@[simp] theorem mkLoopResult_raised (st : LoopSt) : (mkLoopResult st).raised = st.raised := rfl

/-- Projection of the result record (iteration counter). -/
@[simp] theorem mkLoopResult_iterations (st : LoopSt) :
    (mkLoopResult st).iterations = st.iteration := rfl

/-- Projection of the result record (in-flight messages). -/
@[simp] theorem mkLoopResult_messages (st : LoopSt) :
    (mkLoopResult st).messages = st.messages := rfl

/-- Projection of the result record (LLM invocation log). -/
@[simp] theorem mkLoopResult_llmCalls (st : LoopSt) :
    (mkLoopResult st).llmCalls = st.llmCalls := rfl

/-- Projection of the result record (advisories). -/
@[simp] theorem mkLoopResult_loopAdvisories (st : LoopSt) :
    (mkLoopResult st).loopAdvisories = st.loopAdvisories := rfl

/-- Projection of the result record (tool-call records). -/
@[simp] theorem mkLoopResult_toolCalls (st : LoopSt) :
    (mkLoopResult st).toolCalls = st.allToolCalls := rfl

/-- Projection of the result record (registry execution log). -/
@[simp] theorem mkLoopResult_execLog (st : LoopSt) :
    (mkLoopResult st).execLog = st.execLog := rfl

/-- Projection of the result record (session history). -/
@[simp] theorem mkLoopResult_history (st : LoopSt) :
    (mkLoopResult st).history = st.history := rfl

/-- Projection of the result record (final cache). -/
@[simp] theorem mkLoopResult_finalCache (st : LoopSt) :
    (mkLoopResult st).finalCache = st.toolCache := rfl

/-- What forced finalization guarantees, for any entry state: the
finalize system message is appended, the last LLM invocation carries an
empty tool list, and if that invocation failed a `finalization_error`
advisory is recorded. -/
theorem finalizeLoop_props (cfg : AgentCfg) (st : LoopSt) :
    (∃ m ∈ (finalizeLoop cfg st).messages,
      m.role = "system" ∧ m.content = some (finalizeSystemText cfg.maxIterations)) ∧
    (∃ c, (finalizeLoop cfg st).llmCalls.getLast? = some c ∧ c.tools = [] ∧
      (c.failed = true → ∃ a ∈ (finalizeLoop cfg st).loopAdvisories,
        a.typ = "finalization_error")) := by
  obtain ⟨msgs, hist, it, acc, atc, ladv, tcache, ttc, sc, ws, lc, el, lq, dn, rs⟩ := st
  cases lq with
  | nil =>
    refine ⟨⟨systemChatMsg (finalizeSystemText cfg.maxIterations), ?_, rfl, rfl⟩,
      LlmCallRec.mk [] true, List.getLast?_concat _, rfl, fun _ => ?_⟩
    · show _ ∈ (finalizeLoop cfg _).messages
      simp [finalizeLoop]
    · exact ⟨Advisory.mk it "finalization_error"
          "failed to finalize after max iterations: llm transport unavailable",
        List.mem_append_right _ (List.mem_singleton_self _), rfl⟩
  | cons reply rest =>
    cases reply with
    | exn e =>
      refine ⟨⟨systemChatMsg (finalizeSystemText cfg.maxIterations), ?_, rfl, rfl⟩,
        LlmCallRec.mk [] true, List.getLast?_concat _, rfl, fun _ => ?_⟩
      · show _ ∈ (finalizeLoop cfg _).messages
        simp [finalizeLoop]
      · exact ⟨Advisory.mk it "finalization_error"
            ("failed to finalize after max iterations: " ++ e),
          List.mem_append_right _ (List.mem_singleton_self _), rfl⟩
    | ok resp =>
      cases hcs : resp.choices with
      | nil =>
        refine ⟨⟨systemChatMsg (finalizeSystemText cfg.maxIterations), ?_, rfl, rfl⟩,
          LlmCallRec.mk [] false, ?_, rfl, fun hf => by cases hf⟩
        · show _ ∈ (finalizeLoop cfg _).messages
          simp [finalizeLoop, hcs]
        · show (finalizeLoop cfg _).llmCalls.getLast? = _
          simp [finalizeLoop, hcs]
      | cons choice more =>
        by_cases hemp : (choice.message.content.getD "").isEmpty
        · refine ⟨⟨systemChatMsg (finalizeSystemText cfg.maxIterations), ?_, rfl, rfl⟩,
            LlmCallRec.mk [] false, ?_, rfl, fun hf => by cases hf⟩
          · show _ ∈ (finalizeLoop cfg _).messages
            simp [finalizeLoop, hcs, hemp]
          · show (finalizeLoop cfg _).llmCalls.getLast? = _
            simp [finalizeLoop, hcs, hemp]
        · refine ⟨⟨systemChatMsg (finalizeSystemText cfg.maxIterations), ?_, rfl, rfl⟩,
            LlmCallRec.mk [] false, ?_, rfl, fun hf => by cases hf⟩
          · show _ ∈ (finalizeLoop cfg _).messages
            simp [finalizeLoop, hcs, hemp]
          · show (finalizeLoop cfg _).llmCalls.getLast? = _
            simp [finalizeLoop, hcs, hemp]

/-- C3: whenever a turn's iteration count reaches `MAX_ITERATIONS` (and no
exception escaped the main loop), the loop appends the finalize-now system
message and re-invokes the LLM with an empty tool list as its last
invocation; if that final call raises, a `finalization_error` advisory is
recorded. -/
theorem forced_finalization_disables_tools (cfg : AgentCfg) (parse : String → Option Json)
    (registry : String → Json → Json) (llm : List LlmReply)
    (messages0 : List ChatMsg) (history0 : List HistMsg) (tools : List Json)
    (hok : (agentLoopRun cfg parse registry llm messages0 history0 tools).raised = none)
    (hmax : cfg.maxIterations ≤
      (agentLoopRun cfg parse registry llm messages0 history0 tools).iterations) :
    (∃ m ∈ (agentLoopRun cfg parse registry llm messages0 history0 tools).messages,
      m.role = "system" ∧ m.content = some (finalizeSystemText cfg.maxIterations)) ∧
    (∃ c, (agentLoopRun cfg parse registry llm messages0 history0 tools).llmCalls.getLast? =
        some c ∧ c.tools = [] ∧
      (c.failed = true →
        ∃ a ∈ (agentLoopRun cfg parse registry llm messages0 history0 tools).loopAdvisories,
          a.typ = "finalization_error")) := by
  have hrun : agentLoopRun cfg parse registry llm messages0 history0 tools =
      mkLoopResult (if (agentLoopGo cfg parse registry tools cfg.maxIterations
          (initialLoopSt messages0 history0 llm)).raised.isNone ∧
          cfg.maxIterations ≤ (agentLoopGo cfg parse registry tools cfg.maxIterations
            (initialLoopSt messages0 history0 llm)).iteration
        then finalizeLoop cfg (agentLoopGo cfg parse registry tools cfg.maxIterations
          (initialLoopSt messages0 history0 llm))
        else agentLoopGo cfg parse registry tools cfg.maxIterations
          (initialLoopSt messages0 history0 llm)) := rfl
  rw [hrun] at hok hmax ⊢
  by_cases hc : (agentLoopGo cfg parse registry tools cfg.maxIterations
      (initialLoopSt messages0 history0 llm)).raised.isNone ∧
      cfg.maxIterations ≤ (agentLoopGo cfg parse registry tools cfg.maxIterations
        (initialLoopSt messages0 history0 llm)).iteration
  · rw [if_pos hc]
    simpa using finalizeLoop_props cfg (agentLoopGo cfg parse registry tools
      cfg.maxIterations (initialLoopSt messages0 history0 llm))
  · rw [if_neg hc] at hok hmax
    simp only [mkLoopResult_raised, mkLoopResult_iterations] at hok hmax
    exact absurd ⟨Option.isNone_iff_eq_none.mpr hok, hmax⟩ hc

/-- A one-iteration configuration (budget/threshold/size caps at the
source defaults). -/
def miniCfg : AgentCfg := AgentCfg.mk 1 14 3 40000

/-- An argument parser for the mini scenarios: only the empty JSON object
string parses. -/
def miniParse : String → Option Json :=
  fun s => if s = "\x7b\x7d" then some (Json.obj []) else none

/-- A registry that answers every call with a small success payload. -/
def miniRegistry : String → Json → Json := fun _ _ => Json.obj [("ok", Json.bool true)]

/-- A tool call with empty JSON arguments. -/
def miniToolCall : ToolCallMsg := ToolCallMsg.mk "call1" "function" "ping" "\x7b\x7d"

/-- An LLM response that asks for the same tool call twice with no text. -/
def miniToolResp : LlmResponse :=
  LlmResponse.mk [RespChoice.mk (RespMsg.mk none [miniToolCall, miniToolCall] none)]

/-- An LLM response carrying a plain final answer. -/
def miniFinalResp : LlmResponse :=
  LlmResponse.mk [RespChoice.mk (RespMsg.mk (some "done") [] none)]

/-- A full mini turn: one tool-call iteration, then forced finalization. -/
def miniRun : AgentLoopResult :=
  agentLoopRun miniCfg miniParse miniRegistry
    [LlmReply.ok miniToolResp, LlmReply.ok miniFinalResp] [] [] [Json.str "schema"]

/-- Witness for C3 at the mini turn, whose single iteration exhausts the
bound and triggers finalization. -/
theorem forced_finalization_witness :
    miniRun.raised = none ∧ miniCfg.maxIterations ≤ miniRun.iterations ∧
    ((∃ m ∈ miniRun.messages,
        m.role = "system" ∧ m.content = some (finalizeSystemText miniCfg.maxIterations)) ∧
      (∃ c, miniRun.llmCalls.getLast? = some c ∧ c.tools = [] ∧
        (c.failed = true →
          ∃ a ∈ miniRun.loopAdvisories, a.typ = "finalization_error"))) :=
  ⟨rfl, by decide,
    forced_finalization_disables_tools miniCfg miniParse miniRegistry
      [LlmReply.ok miniToolResp, LlmReply.ok miniFinalResp] [] [] [Json.str "schema"]
      rfl (by decide)⟩

/-- Invariant I2 at one message: an assistant message carrying tool calls
never stores its text as the empty string. -/
def assistantEmptyOk (m : ChatMsg) : Prop :=
  m.role = "assistant" → m.toolCalls ≠ [] → m.content ≠ some ""

/-- A message whose role is not `assistant` satisfies I2 vacuously. -/
theorem assistantEmptyOk_of_role_ne (m : ChatMsg) (h : m.role ≠ "assistant") :
    assistantEmptyOk m := fun hr => absurd hr h

/-- Per-call bookkeeping only appends system messages. -/
theorem recordToolCall_messages (cfg : AgentCfg) (parse : String → Option Json)
    (st : LoopSt) (tc : ToolCallMsg) (result : Json) (info : ExecInfo) :
    ∃ extra, (recordToolCall cfg parse st tc result info).messages = st.messages ++ extra ∧
      ∀ m ∈ extra, m.role = "system" := by
  unfold recordToolCall
  cases info.signature with
  | none => exact ⟨[], (List.append_nil _).symm, by simp⟩
  | some sig =>
    dsimp only
    split
    · refine ⟨[systemChatMsg (repeatSelfCheckText tc.name)], rfl, ?_⟩
      intro m hm
      rw [List.mem_singleton] at hm
      subst hm
      rfl
    · exact ⟨[], (List.append_nil _).symm, by simp⟩

/-- The bookkeeping fold only appends system messages. -/
theorem foldl_recordToolCall_messages (cfg : AgentCfg) (parse : String → Option Json) :
    ∀ (l : List (ToolCallMsg × Json × ExecInfo)) (st : LoopSt),
      ∃ extra,
        (l.foldl (fun (s : LoopSt) (p : ToolCallMsg × Json × ExecInfo) =>
            recordToolCall cfg parse s p.1 p.2.1 p.2.2) st).messages =
          st.messages ++ extra ∧
        ∀ m ∈ extra, m.role = "system" := by
  intro l
  induction l with
  | nil => intro st; exact ⟨[], (List.append_nil _).symm, by simp⟩
  | cons p rest ih =>
    intro st
    obtain ⟨e1, he1, hs1⟩ := recordToolCall_messages cfg parse st p.1 p.2.1 p.2.2
    obtain ⟨e2, he2, hs2⟩ := ih (recordToolCall cfg parse st p.1 p.2.1 p.2.2)
    refine ⟨e1 ++ e2, ?_, ?_⟩
    · rw [List.foldl_cons, he2, he1, List.append_assoc]
    · intro m hm
      rcases List.mem_append.mp hm with h | h
      exacts [hs1 m h, hs2 m h]

/-- The batch step appends only messages satisfying I2: the bookkeeping's
system messages, the assistant message (whose empty text is stored as
`none`), the tool-result messages, and possibly the budget system
message. -/
theorem processToolBatch_messages (cfg : AgentCfg) (parse : String → Option Json)
    (registry : String → Json → Json) (st : LoopSt) (content reasoning : String)
    (toolCalls : List ToolCallMsg) :
    ∃ extra,
      (processToolBatch cfg parse registry st content reasoning toolCalls).messages =
        st.messages ++ extra ∧
      ∀ m ∈ extra, assistantEmptyOk m := by
  unfold processToolBatch
  dsimp only
  obtain ⟨fe, hfe, hfs⟩ := foldl_recordToolCall_messages cfg parse _
    { st with
      toolCache := (executeToolsGo parse registry cfg.maxToolResultChars toolCalls
        st.toolCache st.execLog).2.2.1,
      execLog := (executeToolsGo parse registry cfg.maxToolResultChars toolCalls
        st.toolCache st.execLog).2.2.2 }
  split
  · refine ⟨fe ++
      ([{ role := "assistant",
          content := if content.isEmpty then none else some content,
          toolCalls := toolCalls, toolCallId := none,
          reasoningContent := if reasoning.isEmpty then none else some reasoning }] ++
        (toolCalls.zip (executeToolsGo parse registry cfg.maxToolResultChars toolCalls
            st.toolCache st.execLog).1).map
          (fun (p : ToolCallMsg × Json) => toolChatMsg p.1.id (Json.dumps p.2)) ++
        [systemChatMsg (budgetSystemText cfg.maxToolCallsPerTurn)]), ?_, ?_⟩
    · rw [hfe]
      simp [List.append_assoc]
    · intro m hm
      rcases List.mem_append.mp hm with h | h
      · apply assistantEmptyOk_of_role_ne
        rw [hfs m h]
        decide
      · rcases List.mem_append.mp h with h | h
        · rcases List.mem_append.mp h with h | h
          · rw [List.mem_singleton] at h
            subst h
            intro _ _ hcontent
            by_cases hemp : content.isEmpty
            · rw [if_pos hemp] at hcontent
              exact Option.noConfusion hcontent
            · rw [if_neg hemp] at hcontent
              rw [Option.some.injEq] at hcontent
              subst hcontent
              exact hemp rfl
          · rcases List.mem_map.mp h with ⟨p, _, hp⟩
            apply assistantEmptyOk_of_role_ne
            rw [← hp]
            show ("tool" : String) ≠ "assistant"
            decide
        · rw [List.mem_singleton] at h
          subst h
          exact assistantEmptyOk_of_role_ne _
            (show ("system" : String) ≠ "assistant" by decide)
  · refine ⟨fe ++
      ([{ role := "assistant",
          content := if content.isEmpty then none else some content,
          toolCalls := toolCalls, toolCallId := none,
          reasoningContent := if reasoning.isEmpty then none else some reasoning }] ++
        (toolCalls.zip (executeToolsGo parse registry cfg.maxToolResultChars toolCalls
            st.toolCache st.execLog).1).map
          (fun (p : ToolCallMsg × Json) => toolChatMsg p.1.id (Json.dumps p.2))), ?_, ?_⟩
    · rw [hfe]
      simp [List.append_assoc]
    · intro m hm
      rcases List.mem_append.mp hm with h | h
      · apply assistantEmptyOk_of_role_ne
        rw [hfs m h]
        decide
      · rcases List.mem_append.mp h with h | h
        · rw [List.mem_singleton] at h
          subst h
          intro _ _ hcontent
          by_cases hemp : content.isEmpty
          · rw [if_pos hemp] at hcontent
            exact Option.noConfusion hcontent
          · rw [if_neg hemp] at hcontent
            rw [Option.some.injEq] at hcontent
            subst hcontent
            exact hemp rfl
        · rcases List.mem_map.mp h with ⟨p, _, hp⟩
          apply assistantEmptyOk_of_role_ne
          rw [← hp]
          show ("tool" : String) ≠ "assistant"
          decide

/-- One loop pass preserves I2 over the in-flight messages. -/
theorem loopIterate_messagesP (cfg : AgentCfg) (parse : String → Option Json)
    (registry : String → Json → Json) (activeTools : List Json) (st : LoopSt)
    (h : ∀ m ∈ st.messages, assistantEmptyOk m) :
    ∀ m ∈ (loopIterate cfg parse registry activeTools st).messages, assistantEmptyOk m := by
  obtain ⟨msgs, hist, it, acc, atc, ladv, tcache, ttc, sc, ws, lc, el, lq, dn, rs⟩ := st
  cases lq with
  | nil => exact h
  | cons reply rest =>
    cases reply with
    | exn e => exact h
    | ok resp =>
      obtain ⟨choices⟩ := resp
      cases choices with
      | nil => exact h
      | cons choice more =>
        obtain ⟨cmsg⟩ := choice
        obtain ⟨ccontent, ctoolCalls, creasoning⟩ := cmsg
        cases ctoolCalls with
        | nil => exact h
        | cons tc tcs =>
          intro m hm
          obtain ⟨extra, heq, hex⟩ := processToolBatch_messages cfg parse registry
            { messages := msgs, history := hist, iteration := it + 1,
              accumulatedText := acc ++ (ccontent.getD ""),
              allToolCalls := atc, loopAdvisories := ladv, toolCache := tcache,
              totalToolCalls := ttc, sigCounts := sc, warnedSigs := ws,
              llmCalls := lc ++ [LlmCallRec.mk activeTools false], execLog := el,
              llmQueue := rest, done := dn, raised := rs }
            (ccontent.getD "") (creasoning.getD "") (tc :: tcs)
          rw [show (loopIterate cfg parse registry activeTools
              ⟨msgs, hist, it, acc, atc, ladv, tcache, ttc, sc, ws, lc, el,
                LlmReply.ok (LlmResponse.mk (RespChoice.mk
                  (RespMsg.mk ccontent (tc :: tcs) creasoning) :: more)) :: rest,
                dn, rs⟩).messages =
              msgs ++ extra from heq] at hm
          rcases List.mem_append.mp hm with hmem | hmem
          · exact h m hmem
          · exact hex m hmem

/-- Forced finalization appends only the finalize system message. -/
theorem finalizeLoop_messagesP (cfg : AgentCfg) (st : LoopSt)
    (h : ∀ m ∈ st.messages, assistantEmptyOk m) :
    ∀ m ∈ (finalizeLoop cfg st).messages, assistantEmptyOk m := by
  obtain ⟨msgs, hist, it, acc, atc, ladv, tcache, ttc, sc, ws, lc, el, lq, dn, rs⟩ := st
  have hsys : ∀ m ∈ msgs ++ [systemChatMsg (finalizeSystemText cfg.maxIterations)],
      assistantEmptyOk m := by
    intro m hm
    rcases List.mem_append.mp hm with hmem | hmem
    · exact h m hmem
    · rw [List.mem_singleton] at hmem
      subst hmem
      exact assistantEmptyOk_of_role_ne _
        (show ("system" : String) ≠ "assistant" by decide)
  cases lq with
  | nil => exact hsys
  | cons reply rest =>
    cases reply with
    | exn e => exact hsys
    | ok resp =>
      obtain ⟨choices⟩ := resp
      cases choices with
      | nil => exact hsys
      | cons choice more =>
        obtain ⟨cmsg⟩ := choice
        obtain ⟨ccontent, ctoolCalls, creasoning⟩ := cmsg
        by_cases hemp : (ccontent.getD "").isEmpty
        · intro m hm
          refine hsys m ?_
          simpa [finalizeLoop, hemp] using hm
        · intro m hm
          refine hsys m ?_
          simpa [finalizeLoop, hemp] using hm

/-- The fueled loop preserves I2 over the in-flight messages. -/
theorem agentLoopGo_messagesP (cfg : AgentCfg) (parse : String → Option Json)
    (registry : String → Json → Json) (activeTools : List Json) :
    ∀ (fuel : Nat) (st : LoopSt), (∀ m ∈ st.messages, assistantEmptyOk m) →
      ∀ m ∈ (agentLoopGo cfg parse registry activeTools fuel st).messages,
        assistantEmptyOk m := by
  intro fuel
  induction fuel with
  | zero => intro st h; exact h
  | succ f ih =>
    intro st h
    show ∀ m ∈ (if st.done ∨ st.raised.isSome then st
      else agentLoopGo cfg parse registry activeTools f
        (loopIterate cfg parse registry activeTools st)).messages, assistantEmptyOk m
    split
    · exact h
    · exact ih _ (loopIterate_messagesP cfg parse registry activeTools st h)

/-- C8 (amended): in the in-flight messages list sent to the LLM, an
assistant message carrying tool calls never stores empty text as the
empty string (it is stored as null); the session history, by contrast,
records the content verbatim, so the invariant holds only for the
in-flight list. -/
theorem assistant_empty_content_stored_as_null (cfg : AgentCfg)
    (parse : String → Option Json) (registry : String → Json → Json)
    (llm : List LlmReply) (messages0 : List ChatMsg) (history0 : List HistMsg)
    (tools : List Json)
    (h0 : ∀ m ∈ messages0, assistantEmptyOk m) :
    ∀ m ∈ (agentLoopRun cfg parse registry llm messages0 history0 tools).messages,
      assistantEmptyOk m := by
  have hgo := agentLoopGo_messagesP cfg parse registry tools cfg.maxIterations
    (initialLoopSt messages0 history0 llm) h0
  have hrun : agentLoopRun cfg parse registry llm messages0 history0 tools =
      mkLoopResult (if (agentLoopGo cfg parse registry tools cfg.maxIterations
          (initialLoopSt messages0 history0 llm)).raised.isNone ∧
          cfg.maxIterations ≤ (agentLoopGo cfg parse registry tools cfg.maxIterations
            (initialLoopSt messages0 history0 llm)).iteration
        then finalizeLoop cfg (agentLoopGo cfg parse registry tools cfg.maxIterations
          (initialLoopSt messages0 history0 llm))
        else agentLoopGo cfg parse registry tools cfg.maxIterations
          (initialLoopSt messages0 history0 llm)) := rfl
  rw [hrun, mkLoopResult_messages]
  split
  · exact finalizeLoop_messagesP cfg _ hgo
  · exact hgo

/-- Witness for the amended C8 theorem at the mini turn (empty initial
message list). -/
theorem assistant_empty_content_stored_as_null_witness :
    (∀ m ∈ ([] : List ChatMsg), assistantEmptyOk m) ∧
    ∀ m ∈ miniRun.messages, assistantEmptyOk m :=
  ⟨by simp,
   assistant_empty_content_stored_as_null miniCfg miniParse miniRegistry
     [LlmReply.ok miniToolResp, LlmReply.ok miniFinalResp] [] [] [Json.str "schema"]
     (by simp)⟩

/-- C8 counterexample: in the session history the mini turn's assistant
message with tool calls stores its empty text as the empty string, not as
null — `state.add_message("assistant", content, tool_calls=...)` passes
the raw content through. -/
theorem history_stores_empty_string_with_tool_calls :
    ∃ m ∈ miniRun.history, m.role = "assistant" ∧ m.toolCalls ≠ [] ∧ m.content = "" := by
  decide

/-- The signature of a registry execution log entry. -/
def sigOfEntry (e : ExecEntry) : String := buildToolSignature e.toolName e.args

/-- How many times the registry was executed with a given signature. -/
def execCountFor (elog : List ExecEntry) (s : String) : Nat :=
  (elog.filter (fun e => sigOfEntry e == s)).length

/-- Cache/log coupling: a signature has been executed exactly once iff it
is in the cache, and never otherwise. -/
def CacheExecInv (cache : List (String × Json)) (elog : List ExecEntry) : Prop :=
  ∀ s, execCountFor elog s = if (assocLookup cache s).isSome then 1 else 0

/-- Every recorded call's result is the cache's value for its signature. -/
def RecordsCacheInv (cache : List (String × Json)) (recs : List ToolRec) : Prop :=
  ∀ r ∈ recs, ∀ s, r.signature = some s → assocLookup cache s = some r.result

/-- The pairwise claim: a later record with the same signature is served
from cache (marked `cached`) and carries the earlier record's result. -/
def cachedRel (a b : ToolRec) : Prop :=
  ∀ s, a.signature = some s → b.signature = some s → b.cached = true ∧ b.result = a.result

/-- Unfolding of lookup at a cons cell. -/
theorem assocLookup_cons {α : Type _} (kv : String × α) (rest : List (String × α))
    (k : String) :
    assocLookup (kv :: rest) k = if kv.1 = k then some kv.2 else assocLookup rest k := rfl

/-- Lookup distributes over append when the key is found on the left. -/
theorem assocLookup_append_left {α : Type _} (l1 l2 : List (String × α)) (k : String)
    (v : α) (h : assocLookup l1 k = some v) : assocLookup (l1 ++ l2) k = some v := by
  induction l1 with
  | nil => cases h
  | cons kv rest ih =>
    rw [assocLookup_cons] at h
    rw [List.cons_append, assocLookup_cons]
    by_cases hk : kv.1 = k
    · rw [if_pos hk] at h ⊢
      exact h
    · rw [if_neg hk] at h ⊢
      exact ih h

/-- Lookup distributes over append when the key misses on the left. -/
theorem assocLookup_append_right {α : Type _} (l1 l2 : List (String × α)) (k : String)
    (h : assocLookup l1 k = none) : assocLookup (l1 ++ l2) k = assocLookup l2 k := by
  induction l1 with
  | nil => rfl
  | cons kv rest ih =>
    rw [assocLookup_cons] at h
    rw [List.cons_append, assocLookup_cons]
    by_cases hk : kv.1 = k
    · rw [if_pos hk] at h
      cases h
    · rw [if_neg hk] at h ⊢
      exact ih h

/-- Execution counts add over log concatenation. -/
theorem execCountFor_append (e1 e2 : List ExecEntry) (s : String) :
    execCountFor (e1 ++ e2) s = execCountFor e1 s + execCountFor e2 s := by
  unfold execCountFor
  rw [List.filter_append, List.length_append]

/-- The records the loop derives from one executed batch. -/
def batchRecs (parse : String → Option Json) (calls : List ToolCallMsg)
    (results : List Json) (infos : List ExecInfo) : List ToolRec :=
  (calls.zip (results.zip infos)).map (fun p => mkToolRec parse p.1 p.2.1 p.2.2)

/-- Unfolding of `batchRecs` on matched conses. -/
theorem batchRecs_cons (parse : String → Option Json) (tc : ToolCallMsg)
    (rest : List ToolCallMsg) (r : Json) (rs : List Json) (i : ExecInfo)
    (is : List ExecInfo) :
    batchRecs parse (tc :: rest) (r :: rs) (i :: is) =
      mkToolRec parse tc r i :: batchRecs parse rest rs is := rfl

/-- Execution count of a single-entry log. -/
theorem execCountFor_single (e : ExecEntry) (s : String) :
    execCountFor [e] s = if sigOfEntry e == s then 1 else 0 := by
  by_cases h : sigOfEntry e == s
  · simp [execCountFor, List.filter, h]
  · simp [execCountFor, List.filter, h]

/-- Lookup in a one-binding map. -/
theorem assocLookup_singleton {α : Type _} (k : String) (v : α) (s : String) :
    assocLookup [(k, v)] s = if k = s then some v else none := rfl

/-- Signature field of a batch record. -/
theorem mkToolRec_signature (parse : String → Option Json) (tc : ToolCallMsg)
    (r : Json) (i : ExecInfo) : (mkToolRec parse tc r i).signature = i.signature := rfl

/-- Result field of a batch record. -/
theorem mkToolRec_result (parse : String → Option Json) (tc : ToolCallMsg)
    (r : Json) (i : ExecInfo) : (mkToolRec parse tc r i).result = r := rfl

/-- Cached flag of a batch record. -/
theorem mkToolRec_cached (parse : String → Option Json) (tc : ToolCallMsg)
    (r : Json) (i : ExecInfo) : (mkToolRec parse tc r i).cached = i.cached := rfl

/-- The batch executor preserves the cache/log/record invariants, extends
the cache monotonically, and keeps the pairwise cached-replay relation
over the accumulated records. -/
theorem executeToolsGo_inv (parse : String → Option Json)
    (registry : String → Json → Json) (maxChars : Nat) :
    ∀ (calls : List ToolCallMsg) (cache : List (String × Json)) (elog : List ExecEntry)
      (recs : List ToolRec),
      CacheExecInv cache elog →
      RecordsCacheInv cache recs →
      List.Pairwise cachedRel recs →
      (∀ s v, assocLookup cache s = some v →
        assocLookup (executeToolsGo parse registry maxChars calls cache elog).2.2.1 s
          = some v) ∧
      CacheExecInv (executeToolsGo parse registry maxChars calls cache elog).2.2.1
        (executeToolsGo parse registry maxChars calls cache elog).2.2.2 ∧
      RecordsCacheInv (executeToolsGo parse registry maxChars calls cache elog).2.2.1
        (recs ++ batchRecs parse calls
          (executeToolsGo parse registry maxChars calls cache elog).1
          (executeToolsGo parse registry maxChars calls cache elog).2.1) ∧
      List.Pairwise cachedRel (recs ++ batchRecs parse calls
        (executeToolsGo parse registry maxChars calls cache elog).1
        (executeToolsGo parse registry maxChars calls cache elog).2.1) := by
  intro calls
  induction calls with
  | nil =>
    intro cache elog recs h1 h2 h3
    refine ⟨fun s v hv => hv, h1, ?_, ?_⟩
    · simpa [executeToolsGo, batchRecs] using h2
    · simpa [executeToolsGo, batchRecs] using h3
  | cons tc rest ih =>
    intro cache elog recs h1 h2 h3
    cases hp : parse tc.argumentsRaw with
    | none =>
      -- parse failure: no signature, nothing cached or executed
      have hrc : RecordsCacheInv cache (recs ++ [mkToolRec parse tc
          (Json.obj [("success", Json.bool false),
            ("error", Json.str ("工具参数解析失败: " ++ tc.argumentsRaw))])
          (ExecInfo.mk tc.name
            (Json.obj [("_raw_arguments", Json.str tc.argumentsRaw)]) false none)]) := by
        intro r hr s hs
        rcases List.mem_append.mp hr with hr | hr
        · exact h2 r hr s hs
        · rw [List.mem_singleton] at hr
          subst hr
          rw [mkToolRec_signature] at hs
          cases hs
      have hpw : List.Pairwise cachedRel (recs ++ [mkToolRec parse tc
          (Json.obj [("success", Json.bool false),
            ("error", Json.str ("工具参数解析失败: " ++ tc.argumentsRaw))])
          (ExecInfo.mk tc.name
            (Json.obj [("_raw_arguments", Json.str tc.argumentsRaw)]) false none)]) := by
        rw [List.pairwise_append]
        refine ⟨h3, List.pairwise_singleton _ _, ?_⟩
        intro a _ b hb s _ hbs
        rw [List.mem_singleton] at hb
        subst hb
        rw [mkToolRec_signature] at hbs
        cases hbs
      obtain ⟨hmono, hce, hrci, hpw2⟩ := ih cache elog
        (recs ++ [mkToolRec parse tc
          (Json.obj [("success", Json.bool false),
            ("error", Json.str ("工具参数解析失败: " ++ tc.argumentsRaw))])
          (ExecInfo.mk tc.name
            (Json.obj [("_raw_arguments", Json.str tc.argumentsRaw)]) false none)])
        h1 hrc hpw
      simp only [executeToolsGo, hp]
      rw [batchRecs_cons]
      refine ⟨hmono, hce, ?_, ?_⟩
      · simpa [List.append_assoc] using hrci
      · simpa [List.append_assoc] using hpw2
    | some args =>
      cases hl : assocLookup cache (buildToolSignature tc.name args) with
      | some cachedResult =>
        -- cache hit: replayed record carries the cached result
        have hrc : RecordsCacheInv cache (recs ++ [mkToolRec parse tc cachedResult
            (ExecInfo.mk tc.name args true (some (buildToolSignature tc.name args)))]) := by
          intro r hr s hs
          rcases List.mem_append.mp hr with hr | hr
          · exact h2 r hr s hs
          · rw [List.mem_singleton] at hr
            subst hr
            rw [mkToolRec_signature] at hs
            rw [Option.some.injEq] at hs
            subst hs
            rw [mkToolRec_result]
            exact hl
        have hpw : List.Pairwise cachedRel (recs ++ [mkToolRec parse tc cachedResult
            (ExecInfo.mk tc.name args true (some (buildToolSignature tc.name args)))]) := by
          rw [List.pairwise_append]
          refine ⟨h3, List.pairwise_singleton _ _, ?_⟩
          intro a ha b hb s has hbs
          rw [List.mem_singleton] at hb
          subst hb
          rw [mkToolRec_signature] at hbs
          rw [Option.some.injEq] at hbs
          subst hbs
          have hx := h2 a ha _ has
          rw [hl] at hx
          rw [Option.some.injEq] at hx
          exact ⟨mkToolRec_cached _ _ _ _, by rw [mkToolRec_result, hx]⟩
        obtain ⟨hmono, hce, hrci, hpw2⟩ := ih cache elog
          (recs ++ [mkToolRec parse tc cachedResult
            (ExecInfo.mk tc.name args true (some (buildToolSignature tc.name args)))])
          h1 hrc hpw
        simp only [executeToolsGo, hp, hl]
        rw [batchRecs_cons]
        refine ⟨hmono, hce, ?_, ?_⟩
        · simpa [List.append_assoc] using hrci
        · simpa [List.append_assoc] using hpw2
      | none =>
        -- cache miss: execute, sanitize, extend cache and log
        have hmono1 : ∀ s v, assocLookup cache s = some v →
            assocLookup (cache ++ [(buildToolSignature tc.name args,
              sanitizeToolResult maxChars tc.name (registry tc.name args))]) s = some v :=
          fun s v hv => assocLookup_append_left _ _ _ _ hv
        have hlook : assocLookup (cache ++ [(buildToolSignature tc.name args,
            sanitizeToolResult maxChars tc.name (registry tc.name args))])
            (buildToolSignature tc.name args) =
            some (sanitizeToolResult maxChars tc.name (registry tc.name args)) := by
          rw [assocLookup_append_right _ _ _ hl, assocLookup_singleton, if_pos rfl]
        have hlook : assocLookup (cache ++ [(buildToolSignature tc.name args,
            sanitizeToolResult maxChars tc.name (registry tc.name args))])
            (buildToolSignature tc.name args) =
            some (sanitizeToolResult maxChars tc.name (registry tc.name args)) := by
          rw [assocLookup_append_right _ _ _ hl, assocLookup_singleton, if_pos rfl]
        have h1' : CacheExecInv (cache ++ [(buildToolSignature tc.name args,
            sanitizeToolResult maxChars tc.name (registry tc.name args))])
            (elog ++ [ExecEntry.mk tc.name args]) := by
          intro s
          rw [execCountFor_append, execCountFor_single]
          by_cases hs : buildToolSignature tc.name args = s
          · subst hs
            rw [show (sigOfEntry (ExecEntry.mk tc.name args) ==
                buildToolSignature tc.name args) = true from beq_iff_eq.mpr rfl]
            rw [h1 (buildToolSignature tc.name args), hl, hlook]
            simp
          · have hbeq : (sigOfEntry (ExecEntry.mk tc.name args) == s) = false :=
              beq_eq_false_iff_ne.mpr hs
            rw [hbeq]
            have hc' : (assocLookup (cache ++ [(buildToolSignature tc.name args,
                sanitizeToolResult maxChars tc.name (registry tc.name args))]) s).isSome
                = (assocLookup cache s).isSome := by
              cases hcs : assocLookup cache s with
              | some v => rw [assocLookup_append_left _ _ _ _ hcs]
              | none =>
                rw [assocLookup_append_right _ _ _ hcs, assocLookup_singleton, if_neg hs]
            rw [hc', h1 s]
            simp
        have hrc : RecordsCacheInv (cache ++ [(buildToolSignature tc.name args,
            sanitizeToolResult maxChars tc.name (registry tc.name args))])
            (recs ++ [mkToolRec parse tc
              (sanitizeToolResult maxChars tc.name (registry tc.name args))
              (ExecInfo.mk tc.name args false (some (buildToolSignature tc.name args)))]) := by
          intro r hr s hs
          rcases List.mem_append.mp hr with hr | hr
          · exact assocLookup_append_left _ _ _ _ (h2 r hr s hs)
          · rw [List.mem_singleton] at hr
            subst hr
            rw [mkToolRec_signature] at hs
            rw [Option.some.injEq] at hs
            subst hs
            rw [mkToolRec_result]
            exact hlook
        have hpw : List.Pairwise cachedRel (recs ++ [mkToolRec parse tc
            (sanitizeToolResult maxChars tc.name (registry tc.name args))
            (ExecInfo.mk tc.name args false (some (buildToolSignature tc.name args)))]) := by
          rw [List.pairwise_append]
          refine ⟨h3, List.pairwise_singleton _ _, ?_⟩
          intro a ha b hb s has hbs
          rw [List.mem_singleton] at hb
          subst hb
          rw [mkToolRec_signature] at hbs
          rw [Option.some.injEq] at hbs
          subst hbs
          exfalso
          have hx := h2 a ha _ has
          rw [hl] at hx
          cases hx
        obtain ⟨hmono, hce, hrci, hpw2⟩ := ih
          (cache ++ [(buildToolSignature tc.name args,
            sanitizeToolResult maxChars tc.name (registry tc.name args))])
          (elog ++ [ExecEntry.mk tc.name args])
          (recs ++ [mkToolRec parse tc
            (sanitizeToolResult maxChars tc.name (registry tc.name args))
            (ExecInfo.mk tc.name args false (some (buildToolSignature tc.name args)))])
          h1' hrc hpw
        simp only [executeToolsGo, hp, hl]
        rw [batchRecs_cons]
        refine ⟨fun s v hv => hmono s v (assocLookup_append_left _ _ _ _ hv), hce, ?_, ?_⟩
        · simpa [List.append_assoc] using hrci
        · simpa [List.append_assoc] using hpw2

/-- Per-call bookkeeping does not touch the tool cache. -/
theorem recordToolCall_toolCache (cfg : AgentCfg) (parse : String → Option Json)
    (st : LoopSt) (tc : ToolCallMsg) (result : Json) (info : ExecInfo) :
    (recordToolCall cfg parse st tc result info).toolCache = st.toolCache := by
  unfold recordToolCall
  cases info.signature with
  | none => rfl
  | some sig =>
    dsimp only
    split <;> rfl

/-- Per-call bookkeeping does not touch the execution log. -/
theorem recordToolCall_execLog (cfg : AgentCfg) (parse : String → Option Json)
    (st : LoopSt) (tc : ToolCallMsg) (result : Json) (info : ExecInfo) :
    (recordToolCall cfg parse st tc result info).execLog = st.execLog := by
  unfold recordToolCall
  cases info.signature with
  | none => rfl
  | some sig =>
    dsimp only
    split <;> rfl

/-- Per-call bookkeeping appends exactly one record. -/
theorem recordToolCall_allToolCalls (cfg : AgentCfg) (parse : String → Option Json)
    (st : LoopSt) (tc : ToolCallMsg) (result : Json) (info : ExecInfo) :
    (recordToolCall cfg parse st tc result info).allToolCalls =
      st.allToolCalls ++ [mkToolRec parse tc result info] := by
  unfold recordToolCall
  cases info.signature with
  | none => rfl
  | some sig =>
    dsimp only
    split <;> rfl

/-- The bookkeeping fold: cache and log unchanged, records appended in
order. -/
theorem foldl_recordToolCall_state (cfg : AgentCfg) (parse : String → Option Json) :
    ∀ (l : List (ToolCallMsg × Json × ExecInfo)) (st : LoopSt),
      (l.foldl (fun (s : LoopSt) (p : ToolCallMsg × Json × ExecInfo) =>
          recordToolCall cfg parse s p.1 p.2.1 p.2.2) st).toolCache = st.toolCache ∧
      (l.foldl (fun (s : LoopSt) (p : ToolCallMsg × Json × ExecInfo) =>
          recordToolCall cfg parse s p.1 p.2.1 p.2.2) st).execLog = st.execLog ∧
      (l.foldl (fun (s : LoopSt) (p : ToolCallMsg × Json × ExecInfo) =>
          recordToolCall cfg parse s p.1 p.2.1 p.2.2) st).allToolCalls =
        st.allToolCalls ++ l.map
          (fun (p : ToolCallMsg × Json × ExecInfo) => mkToolRec parse p.1 p.2.1 p.2.2) := by
  intro l
  induction l with
  | nil => intro st; exact ⟨rfl, rfl, (List.append_nil _).symm⟩
  | cons p rest ih =>
    intro st
    obtain ⟨hc, he, ha⟩ := ih (recordToolCall cfg parse st p.1 p.2.1 p.2.2)
    refine ⟨?_, ?_, ?_⟩
    · rw [List.foldl_cons, hc, recordToolCall_toolCache]
    · rw [List.foldl_cons, he, recordToolCall_execLog]
    · rw [List.foldl_cons, ha, recordToolCall_allToolCalls, List.map_cons,
        List.append_assoc, List.singleton_append]

/-- The cache / log / record invariant carried through the loop. -/
def LoopInv (st : LoopSt) : Prop :=
  CacheExecInv st.toolCache st.execLog ∧
  RecordsCacheInv st.toolCache st.allToolCalls ∧
  List.Pairwise cachedRel st.allToolCalls

/-- The batch step's effect on cache, log and records. -/
theorem processToolBatch_state (cfg : AgentCfg) (parse : String → Option Json)
    (registry : String → Json → Json) (st : LoopSt) (content reasoning : String)
    (toolCalls : List ToolCallMsg) :
    (processToolBatch cfg parse registry st content reasoning toolCalls).toolCache =
      (executeToolsGo parse registry cfg.maxToolResultChars toolCalls
        st.toolCache st.execLog).2.2.1 ∧
    (processToolBatch cfg parse registry st content reasoning toolCalls).execLog =
      (executeToolsGo parse registry cfg.maxToolResultChars toolCalls
        st.toolCache st.execLog).2.2.2 ∧
    (processToolBatch cfg parse registry st content reasoning toolCalls).allToolCalls =
      st.allToolCalls ++ batchRecs parse toolCalls
        (executeToolsGo parse registry cfg.maxToolResultChars toolCalls
          st.toolCache st.execLog).1
        (executeToolsGo parse registry cfg.maxToolResultChars toolCalls
          st.toolCache st.execLog).2.1 := by
  unfold processToolBatch
  dsimp only
  obtain ⟨hc, he, ha⟩ := foldl_recordToolCall_state cfg parse
    (toolCalls.zip ((executeToolsGo parse registry cfg.maxToolResultChars toolCalls
        st.toolCache st.execLog).1.zip
      (executeToolsGo parse registry cfg.maxToolResultChars toolCalls
        st.toolCache st.execLog).2.1))
    { st with
      toolCache := (executeToolsGo parse registry cfg.maxToolResultChars toolCalls
        st.toolCache st.execLog).2.2.1,
      execLog := (executeToolsGo parse registry cfg.maxToolResultChars toolCalls
        st.toolCache st.execLog).2.2.2 }
  split <;> exact ⟨hc, he, ha⟩

/-- The batch step preserves the loop invariant. -/
theorem processToolBatch_inv (cfg : AgentCfg) (parse : String → Option Json)
    (registry : String → Json → Json) (st : LoopSt) (content reasoning : String)
    (toolCalls : List ToolCallMsg) (h : LoopInv st) :
    LoopInv (processToolBatch cfg parse registry st content reasoning toolCalls) := by
  obtain ⟨h1, h2, h3⟩ := h
  obtain ⟨hmono, hce, hrci, hpw⟩ := executeToolsGo_inv parse registry
    cfg.maxToolResultChars toolCalls st.toolCache st.execLog st.allToolCalls h1 h2 h3
  obtain ⟨hc, he, ha⟩ := processToolBatch_state cfg parse registry st content
    reasoning toolCalls
  exact ⟨by rw [hc, he]; exact hce, by rw [hc, ha]; exact hrci, by rw [ha]; exact hpw⟩

/-- One loop pass preserves the loop invariant. -/
theorem loopIterate_inv (cfg : AgentCfg) (parse : String → Option Json)
    (registry : String → Json → Json) (activeTools : List Json) (st : LoopSt)
    (h : LoopInv st) : LoopInv (loopIterate cfg parse registry activeTools st) := by
  obtain ⟨msgs, hist, it, acc, atc, ladv, tcache, ttc, sc, ws, lc, el, lq, dn, rs⟩ := st
  cases lq with
  | nil => exact h
  | cons reply rest =>
    cases reply with
    | exn e => exact h
    | ok resp =>
      obtain ⟨choices⟩ := resp
      cases choices with
      | nil => exact h
      | cons choice more =>
        obtain ⟨cmsg⟩ := choice
        obtain ⟨ccontent, ctoolCalls, creasoning⟩ := cmsg
        cases ctoolCalls with
        | nil => exact h
        | cons tc tcs => exact processToolBatch_inv cfg parse registry _ _ _ _ h

/-- Forced finalization preserves the loop invariant. -/
theorem finalizeLoop_inv (cfg : AgentCfg) (st : LoopSt) (h : LoopInv st) :
    LoopInv (finalizeLoop cfg st) := by
  obtain ⟨msgs, hist, it, acc, atc, ladv, tcache, ttc, sc, ws, lc, el, lq, dn, rs⟩ := st
  cases lq with
  | nil => exact h
  | cons reply rest =>
    cases reply with
    | exn e => exact h
    | ok resp =>
      obtain ⟨choices⟩ := resp
      cases choices with
      | nil => exact h
      | cons choice more =>
        obtain ⟨cmsg⟩ := choice
        obtain ⟨ccontent, ctoolCalls, creasoning⟩ := cmsg
        by_cases hemp : (ccontent.getD "").isEmpty
        · simpa [finalizeLoop, hemp] using h
        · simpa [finalizeLoop, hemp] using h

/-- The fueled loop preserves the loop invariant. -/
theorem agentLoopGo_inv (cfg : AgentCfg) (parse : String → Option Json)
    (registry : String → Json → Json) (activeTools : List Json) :
    ∀ (fuel : Nat) (st : LoopSt), LoopInv st →
      LoopInv (agentLoopGo cfg parse registry activeTools fuel st) := by
  intro fuel
  induction fuel with
  | zero => intro st h; exact h
  | succ f ih =>
    intro st h
    show LoopInv (if st.done ∨ st.raised.isSome then st
      else agentLoopGo cfg parse registry activeTools f
        (loopIterate cfg parse registry activeTools st))
    split
    · exact h
    · exact ih _ (loopIterate_inv cfg parse registry activeTools st h)

/-- C2: across a whole turn, the registry is executed at most once per
tool-call signature; every record's result is the cache's value for its
signature; and of two records with the same signature, the later one is
marked `cached` and carries the earlier one's (hence the first
execution's) sanitized result. -/
theorem tool_cache_single_execution (cfg : AgentCfg) (parse : String → Option Json)
    (registry : String → Json → Json) (llm : List LlmReply)
    (messages0 : List ChatMsg) (history0 : List HistMsg) (tools : List Json) :
    (∀ s, execCountFor
      (agentLoopRun cfg parse registry llm messages0 history0 tools).execLog s ≤ 1) ∧
    RecordsCacheInv (agentLoopRun cfg parse registry llm messages0 history0 tools).finalCache
      (agentLoopRun cfg parse registry llm messages0 history0 tools).toolCalls ∧
    List.Pairwise cachedRel
      (agentLoopRun cfg parse registry llm messages0 history0 tools).toolCalls := by
  have hinit : LoopInv (initialLoopSt messages0 history0 llm) := by
    refine ⟨fun s => rfl, ?_, ?_⟩
    · intro r hr
      cases hr
    · exact List.Pairwise.nil
  have hgo := agentLoopGo_inv cfg parse registry tools cfg.maxIterations
    (initialLoopSt messages0 history0 llm) hinit
  have hrun : agentLoopRun cfg parse registry llm messages0 history0 tools =
      mkLoopResult (if (agentLoopGo cfg parse registry tools cfg.maxIterations
          (initialLoopSt messages0 history0 llm)).raised.isNone ∧
          cfg.maxIterations ≤ (agentLoopGo cfg parse registry tools cfg.maxIterations
            (initialLoopSt messages0 history0 llm)).iteration
        then finalizeLoop cfg (agentLoopGo cfg parse registry tools cfg.maxIterations
          (initialLoopSt messages0 history0 llm))
        else agentLoopGo cfg parse registry tools cfg.maxIterations
          (initialLoopSt messages0 history0 llm)) := rfl
  rw [hrun, mkLoopResult_execLog, mkLoopResult_finalCache, mkLoopResult_toolCalls]
  have hfinal : LoopInv (if (agentLoopGo cfg parse registry tools cfg.maxIterations
      (initialLoopSt messages0 history0 llm)).raised.isNone ∧
      cfg.maxIterations ≤ (agentLoopGo cfg parse registry tools cfg.maxIterations
        (initialLoopSt messages0 history0 llm)).iteration
    then finalizeLoop cfg (agentLoopGo cfg parse registry tools cfg.maxIterations
      (initialLoopSt messages0 history0 llm))
    else agentLoopGo cfg parse registry tools cfg.maxIterations
      (initialLoopSt messages0 history0 llm)) := by
    split
    · exact finalizeLoop_inv cfg _ hgo
    · exact hgo
  obtain ⟨h1, h2, h3⟩ := hfinal
  refine ⟨fun s => ?_, h2, h3⟩
  rw [h1 s]
  by_cases hs : (assocLookup (if (agentLoopGo cfg parse registry tools cfg.maxIterations
      (initialLoopSt messages0 history0 llm)).raised.isNone ∧
      cfg.maxIterations ≤ (agentLoopGo cfg parse registry tools cfg.maxIterations
        (initialLoopSt messages0 history0 llm)).iteration
    then finalizeLoop cfg (agentLoopGo cfg parse registry tools cfg.maxIterations
      (initialLoopSt messages0 history0 llm))
    else agentLoopGo cfg parse registry tools cfg.maxIterations
      (initialLoopSt messages0 history0 llm)).toolCache s).isSome
  · rw [if_pos hs]
  · rw [if_neg hs]
    omega

/-- Non-vacuity check of the cache behavior on the mini turn: two
identical calls, one registry execution, the second record cached. -/
example : miniRun.execLog.length = 1 ∧ miniRun.toolCalls.map ToolRec.cached = [false, true] := by
  decide
